import Mathlib

/-!
Shallow embedding of `mutpy/controller.py` (mutation-testing engine core) and
proofs about it.

Conventions used throughout:
* Python object identity is modelled by numeric `id` fields: two AST nodes
  (resp. `Mutation` objects) are the same Python object iff their ids are
  equal.  `node.children` (produced by `utils.ParentNodeTransformer`, outside
  this repository) is modelled as the list of ids of the node's descendants.
* Python `while` loops are modelled by structural recursion on an explicit
  fuel argument.  At every call site the fuel is chosen so that it can never
  run out on the executions the source terminates on (each loop iteration
  strictly consumes at least one list element when `order ≥ 1`); lemmas below
  make that precise where a claim needs it.
* Machine floats (test durations, the timeout budget) are modelled as `ℚ`.
* Exceptions are modelled with `Except` / an optional terminal error paired
  with the prefix of values a generator yielded before raising.
-/

/-- An AST node as seen by the controller: `id` models Python object identity,
`childIds` the ids of the nodes in its `children` attribute (all descendants,
as built by `utils.ParentNodeTransformer`). -/
structure Node where
  id : Nat
  childIds : List Nat
deriving DecidableEq

/-- An atomic mutation (`operators.Mutation`): the target node and the
operator that produced it.  `uid` models Python object identity of the
`Mutation` object itself. -/
structure Mutation where
  uid : Nat
  node : Node
  op : Nat
deriving DecidableEq

/-- The location-conflict part of the test in
`HOMStrategy.remove_bad_mutations`: the two mutations target the same node,
or one node is among the other's `children` (descendants). -/
def locationConflict (a b : Mutation) : Bool :=
  a.node.id == b.node.id ||
  b.node.childIds.contains a.node.id ||
  a.node.childIds.contains b.node.id

/-- The full removal condition of `HOMStrategy.remove_bad_mutations`
(`controller.py` lines 355-358): a location conflict, or (when
`allow_same_operators` is false) an operator shared with a mutation already
chosen. -/
def isBadMutation (mutation_to_apply available_mutation : Mutation)
    (allow_same_operators : Bool) : Bool :=
  mutation_to_apply.node.id == available_mutation.node.id ||
  available_mutation.node.childIds.contains mutation_to_apply.node.id ||
  mutation_to_apply.node.childIds.contains available_mutation.node.id ||
  (!allow_same_operators && mutation_to_apply.op == available_mutation.op)

/-- Embedding of `HOMStrategy.remove_bad_mutations`: iterating over a copy of
`available_mutations` and removing every conflicting element in place amounts
to filtering out every element that conflicts with some element of
`mutations_to_apply`. -/
def remove_bad_mutations (mutations_to_apply available_mutations : List Mutation)
    (allow_same_operators : Bool) : List Mutation :=
  available_mutations.filter fun available_mutation =>
    !(mutations_to_apply.any fun mutation_to_apply =>
        isBadMutation mutation_to_apply available_mutation allow_same_operators)

/-- Python `list.pop(0)` on a possibly empty list. -/
def popFront : List Mutation → Option (Mutation × List Mutation)
  | [] => none
  | x :: xs => some (x, xs)

/-- Python `list.pop(-1)` (pop the last element) on a possibly empty list. -/
def popBack (l : List Mutation) : Option (Mutation × List Mutation) :=
  match l.getLast? with
  | none => none
  | some x => some (x, l.dropLast)

/-- Inner `while` loop of `FirstToLastHOMStrategy.generate`
(`controller.py` lines 371-379): alternately pop the front and the back of
`available_mutations`, remove the popped mutation from `mutations`, and filter
the pool with `remove_bad_mutations`.  `front = true` models `index = 0`.
The dead `except IndexError` branch of the source is the `none` case. -/
def FirstToLastHOMStrategy.applyLoop (order : Nat) :
    Nat → List Mutation → List Mutation → List Mutation → Bool →
    List Mutation × List Mutation
  | 0, mutations_to_apply, mutations, _, _ => (mutations_to_apply, mutations)
  | fuel + 1, mutations_to_apply, mutations, available_mutations, front =>
    if mutations_to_apply.length < order then
      match (if front then popFront available_mutations else popBack available_mutations) with
      | none => (mutations_to_apply, mutations)
      | some (mutation, rest) =>
        let mutations_to_apply' := mutations_to_apply ++ [mutation]
        let mutations' := mutations.erase mutation
        let available' := remove_bad_mutations mutations_to_apply' rest true
        FirstToLastHOMStrategy.applyLoop order fuel mutations_to_apply' mutations' available' (!front)
    else (mutations_to_apply, mutations)

/-- Outer `while mutations:` loop of `FirstToLastHOMStrategy.generate`.  Each
iteration copies `mutations` into `available_mutations`, runs the inner loop
(which starts with `index = 0`, i.e. popping the front), and yields the group.
With `order ≥ 1` every iteration strictly shrinks `mutations`, so fuel
`mutations.length` never runs out. -/
def FirstToLastHOMStrategy.generateLoop (order : Nat) :
    Nat → List Mutation → List (List Mutation)
  | 0, _ => []
  | fuel + 1, mutations =>
    if mutations = [] then []
    else
      let p := FirstToLastHOMStrategy.applyLoop order mutations.length [] mutations mutations true
      p.1 :: FirstToLastHOMStrategy.generateLoop order fuel p.2

/-- Embedding of `FirstToLastHOMStrategy.generate` (`controller.py` lines
365-380); `order` is the strategy's `self.order` (default 2). -/
def FirstToLastHOMStrategy.generate (order : Nat) (mutations : List Mutation) :
    List (List Mutation) :=
  FirstToLastHOMStrategy.generateLoop order mutations.length mutations

/-- Inner `while` loop of `EachChoiceHOMStrategy.generate` (`controller.py`
lines 391-398): always pops the front of `available_mutations`. -/
def EachChoiceHOMStrategy.applyLoop (order : Nat) :
    Nat → List Mutation → List Mutation → List Mutation →
    List Mutation × List Mutation
  | 0, mutations_to_apply, mutations, _ => (mutations_to_apply, mutations)
  | fuel + 1, mutations_to_apply, mutations, available_mutations =>
    if mutations_to_apply.length < order then
      match popFront available_mutations with
      | none => (mutations_to_apply, mutations)
      | some (mutation, rest) =>
        let mutations_to_apply' := mutations_to_apply ++ [mutation]
        let mutations' := mutations.erase mutation
        let available' := remove_bad_mutations mutations_to_apply' rest true
        EachChoiceHOMStrategy.applyLoop order fuel mutations_to_apply' mutations' available'
    else (mutations_to_apply, mutations)

/-- Outer `while mutations:` loop of `EachChoiceHOMStrategy.generate`. -/
def EachChoiceHOMStrategy.generateLoop (order : Nat) :
    Nat → List Mutation → List (List Mutation)
  | 0, _ => []
  | fuel + 1, mutations =>
    if mutations = [] then []
    else
      let p := EachChoiceHOMStrategy.applyLoop order mutations.length [] mutations mutations
      p.1 :: EachChoiceHOMStrategy.generateLoop order fuel p.2

/-- Embedding of `EachChoiceHOMStrategy.generate` (`controller.py` lines
386-399). -/
def EachChoiceHOMStrategy.generate (order : Nat) (mutations : List Mutation) :
    List (List Mutation) :=
  EachChoiceHOMStrategy.generateLoop order mutations.length mutations

/-- Inner `while` loop of `BetweenOperatorsHOMStrategy.generate`
(`controller.py` lines 412-418): pop the front of the usage-sorted pool,
erase first-time-used mutations from `not_used`, bump the usage counter, and
filter the pool with `allow_same_operators=False`. -/
def BetweenOperatorsHOMStrategy.applyLoop (order : Nat) :
    Nat → List Mutation → (Mutation → Nat) → List Mutation → List Mutation →
    List Mutation × (Mutation → Nat) × List Mutation
  | 0, mutations_to_apply, usage, not_used, _ => (mutations_to_apply, usage, not_used)
  | fuel + 1, mutations_to_apply, usage, not_used, available_mutations =>
    if mutations_to_apply.length < order then
      match popFront available_mutations with
      | none => (mutations_to_apply, usage, not_used)
      | some (mutation, rest) =>
        let mutations_to_apply' := mutations_to_apply ++ [mutation]
        let not_used' := if usage mutation = 0 then not_used.erase mutation else not_used
        let usage' := fun x => if x = mutation then usage x + 1 else usage x
        let available' := remove_bad_mutations mutations_to_apply' rest false
        BetweenOperatorsHOMStrategy.applyLoop order fuel mutations_to_apply' usage' not_used' available'
    else (mutations_to_apply, usage, not_used)

/-- Outer `while not_used:` loop of `BetweenOperatorsHOMStrategy.generate`.
Each iteration copies the caller-visible `mutations` list and stably sorts the
copy by usage count ascending (Python `list.sort` is stable; so is
`List.mergeSort`). -/
def BetweenOperatorsHOMStrategy.generateLoop (order : Nat) (mutations : List Mutation) :
    Nat → (Mutation → Nat) → List Mutation →
    List (List Mutation) × (Mutation → Nat) × List Mutation
  | 0, usage, not_used => ([], usage, not_used)
  | fuel + 1, usage, not_used =>
    if not_used = [] then ([], usage, not_used)
    else
      let available := mutations.mergeSort fun a b => decide (usage a ≤ usage b)
      let p := BetweenOperatorsHOMStrategy.applyLoop order available.length [] usage not_used available
      let q := BetweenOperatorsHOMStrategy.generateLoop order mutations fuel p.2.1 p.2.2
      (p.1 :: q.1, q.2.1, q.2.2)

/-- Embedding of `BetweenOperatorsHOMStrategy.generate` (`controller.py` lines
405-419), exposing the final usage function and the final `not_used` list in
addition to the yielded groups.  The initial usage dictionary maps every
mutation to 0; `not_used` starts as a copy of the input. -/
def BetweenOperatorsHOMStrategy.generateFull (order : Nat) (mutations : List Mutation) :
    List (List Mutation) × (Mutation → Nat) × List Mutation :=
  BetweenOperatorsHOMStrategy.generateLoop order mutations mutations.length
    (fun _ => 0) mutations

/-- The groups yielded by `BetweenOperatorsHOMStrategy.generate`. -/
def BetweenOperatorsHOMStrategy.generate (order : Nat) (mutations : List Mutation) :
    List (List Mutation) :=
  (BetweenOperatorsHOMStrategy.generateFull order mutations).1

/-- Inner `while` loop of `RandomHOMStrategy.generate` (`controller.py` lines
435-442); identical in the source to the Each-Choice inner loop. -/
def RandomHOMStrategy.applyLoop (order : Nat) :
    Nat → List Mutation → List Mutation → List Mutation →
    List Mutation × List Mutation
  | 0, mutations_to_apply, mutations, _ => (mutations_to_apply, mutations)
  | fuel + 1, mutations_to_apply, mutations, available_mutations =>
    if mutations_to_apply.length < order then
      match popFront available_mutations with
      | none => (mutations_to_apply, mutations)
      | some (mutation, rest) =>
        let mutations_to_apply' := mutations_to_apply ++ [mutation]
        let mutations' := mutations.erase mutation
        let available' := remove_bad_mutations mutations_to_apply' rest true
        RandomHOMStrategy.applyLoop order fuel mutations_to_apply' mutations' available'
    else (mutations_to_apply, mutations)

/-- Outer `while mutations:` loop of `RandomHOMStrategy.generate`. -/
def RandomHOMStrategy.generateLoop (order : Nat) :
    Nat → List Mutation → List (List Mutation)
  | 0, _ => []
  | fuel + 1, mutations =>
    if mutations = [] then []
    else
      let p := RandomHOMStrategy.applyLoop order mutations.length [] mutations mutations
      p.1 :: RandomHOMStrategy.generateLoop order fuel p.2

/-- Embedding of `RandomHOMStrategy.generate` (`controller.py` lines 429-443):
the copy of the input is shuffled in place by the injectable `shuffler`
(modelled as a pure list transformation), then consumed exactly as in
Each-Choice. -/
def RandomHOMStrategy.generate (order : Nat) (shuffler : List Mutation → List Mutation)
    (mutations : List Mutation) : List (List Mutation) :=
  let mutations := shuffler mutations
  RandomHOMStrategy.generateLoop order mutations.length mutations

/-- Embedding of `MutationScore.__init__` state (`controller.py` lines 13-21). -/
structure MutationScore where
  killed_mutants : Nat
  timeout_mutants : Nat
  incompetent_mutants : Nat
  survived_mutants : Nat
  covered_nodes : Nat
  all_nodes : Nat
deriving DecidableEq

/-- The freshly constructed `MutationScore()`: all counters zero. -/
def MutationScore.init : MutationScore := ⟨0, 0, 0, 0, 0, 0⟩

/-- Embedding of the `MutationScore.all_mutants` property (`controller.py`
lines 43-45). -/
def MutationScore.all_mutants (s : MutationScore) : Nat :=
  s.killed_mutants + s.timeout_mutants + s.incompetent_mutants + s.survived_mutants

/-- Embedding of `MutationScore.count` (`controller.py` lines 23-25); Python
float arithmetic is modelled exactly in `ℚ`.  `if bottom` is Python integer
truthiness, i.e. `bottom ≠ 0`. -/
def MutationScore.count (s : MutationScore) : ℚ :=
  let bottom : Nat := s.all_mutants - s.incompetent_mutants
  if bottom ≠ 0 then
    (((s.killed_mutants : ℚ) + (s.timeout_mutants : ℚ)) / (bottom : ℚ)) * 100
  else 0

/-- Embedding of `MutationScore.inc_killed`. -/
def MutationScore.inc_killed (s : MutationScore) : MutationScore :=
  { s with killed_mutants := s.killed_mutants + 1 }

/-- Embedding of `MutationScore.inc_timeout`. -/
def MutationScore.inc_timeout (s : MutationScore) : MutationScore :=
  { s with timeout_mutants := s.timeout_mutants + 1 }

/-- Embedding of `MutationScore.inc_incompetent`. -/
def MutationScore.inc_incompetent (s : MutationScore) : MutationScore :=
  { s with incompetent_mutants := s.incompetent_mutants + 1 }

/-- Embedding of `MutationScore.inc_survived`. -/
def MutationScore.inc_survived (s : MutationScore) : MutationScore :=
  { s with survived_mutants := s.survived_mutants + 1 }

/-!
Heap model of Python list objects, used to state the frame property: a
strategy's `generate` never modifies the caller's list object.  A `ListHeap`
maps references (allocation indices) to list values; `x[:]` is `alloc`, an
in-place mutation of the object bound to `r` is `set r`.
-/

/-- A heap of Python list-of-`Mutation` objects. -/
structure ListHeap where
  cells : List (List Mutation)
deriving DecidableEq

/-- Read the list object a reference denotes. -/
def ListHeap.get (h : ListHeap) (r : Nat) : List Mutation :=
  h.cells.getD r []

/-- Mutate in place the list object a reference denotes. -/
def ListHeap.set (h : ListHeap) (r : Nat) (v : List Mutation) : ListHeap :=
  ⟨h.cells.set r v⟩

/-- Allocate a fresh list object (Python `l[:]` copies into a new object). -/
def ListHeap.alloc (h : ListHeap) (v : List Mutation) : ListHeap × Nat :=
  (⟨h.cells ++ [v]⟩, h.cells.length)

/-- Heap-level transcription of the inner loop of
`FirstToLastHOMStrategy.generate`: `pop`, `mutations.remove` and
`remove_bad_mutations` each mutate the object their reference denotes. -/
def FirstToLastHOMStrategy.applyLoopH (order : Nat) :
    Nat → List Mutation → ListHeap → Nat → Nat → Bool → List Mutation × ListHeap
  | 0, mutations_to_apply, h, _, _, _ => (mutations_to_apply, h)
  | fuel + 1, mutations_to_apply, h, mutationsRef, availRef, front =>
    if mutations_to_apply.length < order then
      match (if front then popFront (h.get availRef) else popBack (h.get availRef)) with
      | none => (mutations_to_apply, h)
      | some (mutation, rest) =>
        let h := h.set availRef rest
        let mutations_to_apply := mutations_to_apply ++ [mutation]
        let h := h.set mutationsRef ((h.get mutationsRef).erase mutation)
        let h := h.set availRef (remove_bad_mutations mutations_to_apply (h.get availRef) true)
        FirstToLastHOMStrategy.applyLoopH order fuel mutations_to_apply h mutationsRef availRef (!front)
    else (mutations_to_apply, h)

/-- Heap-level outer loop of `FirstToLastHOMStrategy.generate`: each
iteration allocates `available_mutations = mutations[:]`. -/
def FirstToLastHOMStrategy.generateLoopH (order : Nat) :
    Nat → ListHeap → Nat → List (List Mutation) × ListHeap
  | 0, h, _ => ([], h)
  | fuel + 1, h, mutationsRef =>
    if h.get mutationsRef = [] then ([], h)
    else
      let a := h.alloc (h.get mutationsRef)
      let p := FirstToLastHOMStrategy.applyLoopH order (a.1.get a.2).length [] a.1 mutationsRef a.2 true
      let q := FirstToLastHOMStrategy.generateLoopH order fuel p.2 mutationsRef
      (p.1 :: q.1, q.2)

/-- Heap-level `FirstToLastHOMStrategy.generate`: the body's first statement
`mutations = mutations[:]` allocates a private copy of the caller's list; all
subsequent list mutation targets that copy or pools allocated later. -/
def FirstToLastHOMStrategy.generateH (order : Nat) (h : ListHeap) (mutationsRef : Nat) :
    List (List Mutation) × ListHeap :=
  let a := h.alloc (h.get mutationsRef)
  FirstToLastHOMStrategy.generateLoopH order (a.1.get a.2).length a.1 a.2

/-- Heap-level transcription of the inner loop of
`EachChoiceHOMStrategy.generate`. -/
def EachChoiceHOMStrategy.applyLoopH (order : Nat) :
    Nat → List Mutation → ListHeap → Nat → Nat → List Mutation × ListHeap
  | 0, mutations_to_apply, h, _, _ => (mutations_to_apply, h)
  | fuel + 1, mutations_to_apply, h, mutationsRef, availRef =>
    if mutations_to_apply.length < order then
      match popFront (h.get availRef) with
      | none => (mutations_to_apply, h)
      | some (mutation, rest) =>
        let h := h.set availRef rest
        let mutations_to_apply := mutations_to_apply ++ [mutation]
        let h := h.set mutationsRef ((h.get mutationsRef).erase mutation)
        let h := h.set availRef (remove_bad_mutations mutations_to_apply (h.get availRef) true)
        EachChoiceHOMStrategy.applyLoopH order fuel mutations_to_apply h mutationsRef availRef
    else (mutations_to_apply, h)

/-- Heap-level outer loop of `EachChoiceHOMStrategy.generate`. -/
def EachChoiceHOMStrategy.generateLoopH (order : Nat) :
    Nat → ListHeap → Nat → List (List Mutation) × ListHeap
  | 0, h, _ => ([], h)
  | fuel + 1, h, mutationsRef =>
    if h.get mutationsRef = [] then ([], h)
    else
      let a := h.alloc (h.get mutationsRef)
      let p := EachChoiceHOMStrategy.applyLoopH order (a.1.get a.2).length [] a.1 mutationsRef a.2
      let q := EachChoiceHOMStrategy.generateLoopH order fuel p.2 mutationsRef
      (p.1 :: q.1, q.2)

/-- Heap-level `EachChoiceHOMStrategy.generate`. -/
def EachChoiceHOMStrategy.generateH (order : Nat) (h : ListHeap) (mutationsRef : Nat) :
    List (List Mutation) × ListHeap :=
  let a := h.alloc (h.get mutationsRef)
  EachChoiceHOMStrategy.generateLoopH order (a.1.get a.2).length a.1 a.2

/-- Heap-level transcription of the inner loop of
`BetweenOperatorsHOMStrategy.generate`; `not_used.remove` mutates the
`not_used` object in place. -/
def BetweenOperatorsHOMStrategy.applyLoopH (order : Nat) :
    Nat → List Mutation → (Mutation → Nat) → ListHeap → Nat → Nat →
    (List Mutation × (Mutation → Nat)) × ListHeap
  | 0, mutations_to_apply, usage, h, _, _ => ((mutations_to_apply, usage), h)
  | fuel + 1, mutations_to_apply, usage, h, notUsedRef, availRef =>
    if mutations_to_apply.length < order then
      match popFront (h.get availRef) with
      | none => ((mutations_to_apply, usage), h)
      | some (mutation, rest) =>
        let h := h.set availRef rest
        let mutations_to_apply := mutations_to_apply ++ [mutation]
        let h := if usage mutation = 0 then
            h.set notUsedRef ((h.get notUsedRef).erase mutation)
          else h
        let usage := fun x => if x = mutation then usage x + 1 else usage x
        let h := h.set availRef (remove_bad_mutations mutations_to_apply (h.get availRef) false)
        BetweenOperatorsHOMStrategy.applyLoopH order fuel mutations_to_apply usage h notUsedRef availRef
    else ((mutations_to_apply, usage), h)

/-- Heap-level outer loop of `BetweenOperatorsHOMStrategy.generate`: each
iteration re-reads the caller's list (`available_mutations = mutations[:]`),
allocating a fresh pool, and sorts that pool in place by usage. -/
def BetweenOperatorsHOMStrategy.generateLoopH (order mutationsRef : Nat) :
    Nat → (Mutation → Nat) → ListHeap → Nat → List (List Mutation) × ListHeap
  | 0, _, h, _ => ([], h)
  | fuel + 1, usage, h, notUsedRef =>
    if h.get notUsedRef = [] then ([], h)
    else
      let a := h.alloc (h.get mutationsRef)
      let h := a.1.set a.2 ((a.1.get a.2).mergeSort fun x y => decide (usage x ≤ usage y))
      let p := BetweenOperatorsHOMStrategy.applyLoopH order (h.get a.2).length [] usage h notUsedRef a.2
      let q := BetweenOperatorsHOMStrategy.generateLoopH order mutationsRef fuel p.1.2 p.2 notUsedRef
      (p.1.1 :: q.1, q.2)

/-- Heap-level `BetweenOperatorsHOMStrategy.generate`: `not_used =
mutations[:]` allocates the only long-lived private list; the caller's list is
only ever read. -/
def BetweenOperatorsHOMStrategy.generateH (order : Nat) (h : ListHeap) (mutationsRef : Nat) :
    List (List Mutation) × ListHeap :=
  let a := h.alloc (h.get mutationsRef)
  BetweenOperatorsHOMStrategy.generateLoopH order mutationsRef (a.1.get a.2).length
    (fun _ => 0) a.1 a.2

/-- Heap-level transcription of the inner loop of
`RandomHOMStrategy.generate`. -/
def RandomHOMStrategy.applyLoopH (order : Nat) :
    Nat → List Mutation → ListHeap → Nat → Nat → List Mutation × ListHeap
  | 0, mutations_to_apply, h, _, _ => (mutations_to_apply, h)
  | fuel + 1, mutations_to_apply, h, mutationsRef, availRef =>
    if mutations_to_apply.length < order then
      match popFront (h.get availRef) with
      | none => (mutations_to_apply, h)
      | some (mutation, rest) =>
        let h := h.set availRef rest
        let mutations_to_apply := mutations_to_apply ++ [mutation]
        let h := h.set mutationsRef ((h.get mutationsRef).erase mutation)
        let h := h.set availRef (remove_bad_mutations mutations_to_apply (h.get availRef) true)
        RandomHOMStrategy.applyLoopH order fuel mutations_to_apply h mutationsRef availRef
    else (mutations_to_apply, h)

/-- Heap-level outer loop of `RandomHOMStrategy.generate`. -/
def RandomHOMStrategy.generateLoopH (order : Nat) :
    Nat → ListHeap → Nat → List (List Mutation) × ListHeap
  | 0, h, _ => ([], h)
  | fuel + 1, h, mutationsRef =>
    if h.get mutationsRef = [] then ([], h)
    else
      let a := h.alloc (h.get mutationsRef)
      let p := RandomHOMStrategy.applyLoopH order (a.1.get a.2).length [] a.1 mutationsRef a.2
      let q := RandomHOMStrategy.generateLoopH order fuel p.2 mutationsRef
      (p.1 :: q.1, q.2)

/-- Heap-level `RandomHOMStrategy.generate`: the copy of the caller's list is
shuffled in place (`self.shuffler(mutations)` after `mutations =
mutations[:]`), then consumed as in Each-Choice. -/
def RandomHOMStrategy.generateH (order : Nat) (shuffler : List Mutation → List Mutation)
    (h : ListHeap) (mutationsRef : Nat) : List (List Mutation) × ListHeap :=
  let a := h.alloc (h.get mutationsRef)
  let h := a.1.set a.2 (shuffler (a.1.get a.2))
  RandomHOMStrategy.generateLoopH order (h.get a.2).length h a.2

/-!
Controller model.  The collaborators that live outside this repository
(`utils`, `views`, the unittest machinery, the mutation operators) are
abstracted as oracle data carried by the inputs: what each baseline test run
returned, whether each mutant materialized, and what the timeout-bounded
runner returned for it.  Everything the controller itself does with those
answers is transcribed from `controller.py`.
-/

/-- The result object produced by the mutation test runner
(`utils.get_mutation_test_runner_class`, outside this repository), as consumed
by `MutationController.update_score_and_notify_views`. -/
structure MutantTestResult where
  is_incompetent : Bool
  is_survived : Bool
  tests_run : Nat
  killer : String
  exception_traceback : String
  exception : String
deriving DecidableEq

/-- One observer notification (the `views.ViewNotifier.notify_*` calls), with
the payload the controller passes. -/
inductive Notification
  | initNotice
  | passedNotice (number_of_tests : Nat)
  | startNotice
  | endNotice
  | mutationNotice (number : Nat) (mutations : List Mutation)
  | timeoutNotice (duration : ℚ)
  | incompetentNotice (duration : ℚ) (exception : String) (tests_run : Nat)
  | survivedNotice (duration : ℚ) (tests_run : Nat)
  | killedNotice (duration : ℚ) (killer : String) (exception_traceback : String) (tests_run : Nat)
  | originalTestsFailNotice
  | cantLoadNotice (name : String)
deriving DecidableEq

/-- Observable controller state: the running `MutationScore` and the ordered
log of notifications sent to the views. -/
structure ControllerState where
  score : MutationScore
  log : List Notification
deriving DecidableEq

/-- Append one observer notification. -/
def ControllerState.notify (st : ControllerState) (n : Notification) : ControllerState :=
  { st with log := st.log ++ [n] }

/-- Embedding of `MutationController.update_timeout_mutant`
(`controller.py` lines 308-310). -/
def MutationController.update_timeout_mutant (st : ControllerState) (duration : ℚ) :
    ControllerState :=
  let st := st.notify (.timeoutNotice duration)
  { st with score := st.score.inc_timeout }

/-- Embedding of `MutationController.update_incompetent_mutant`
(`controller.py` lines 315-317). -/
def MutationController.update_incompetent_mutant (st : ControllerState)
    (result : MutantTestResult) (duration : ℚ) : ControllerState :=
  let st := st.notify (.incompetentNotice duration result.exception result.tests_run)
  { st with score := st.score.inc_incompetent }

/-- Embedding of `MutationController.update_survived_mutant`
(`controller.py` lines 322-324). -/
def MutationController.update_survived_mutant (st : ControllerState)
    (result : MutantTestResult) (duration : ℚ) : ControllerState :=
  let st := st.notify (.survivedNotice duration result.tests_run)
  { st with score := st.score.inc_survived }

/-- Embedding of `MutationController.update_killed_mutant`
(`controller.py` lines 329-331). -/
def MutationController.update_killed_mutant (st : ControllerState)
    (result : MutantTestResult) (duration : ℚ) : ControllerState :=
  let st := st.notify (.killedNotice duration result.killer result.exception_traceback result.tests_run)
  { st with score := st.score.inc_killed }

/-- Embedding of `MutationController.update_score_and_notify_views`
(`controller.py` lines 296-304).  `none` is the runner's timeout sentinel
(`if not result`). -/
def MutationController.update_score_and_notify_views (st : ControllerState)
    (result : Option MutantTestResult) (mutant_duration : ℚ) : ControllerState :=
  match result with
  | none => MutationController.update_timeout_mutant st mutant_duration
  | some result =>
    if result.is_incompetent then
      MutationController.update_incompetent_mutant st result mutant_duration
    else if result.is_survived then
      MutationController.update_survived_mutant st result mutant_duration
    else
      MutationController.update_killed_mutant st result mutant_duration

/-- Embedding of the deadline computation in
`MutationController.run_mutation_test_runner` (`controller.py` line 285):
`live_time = self.timeout_factor * (total_duration if total_duration > 1 else 1)`. -/
def MutationController.live_time (timeout_factor total_duration : ℚ) : ℚ :=
  timeout_factor * (if total_duration > 1 then total_duration else 1)

/-- Python truthiness test `self.mutation_number and self.mutation_number !=
mutation_number` from `MutationController.mutate_module` (`controller.py`
line 165): `None` and `0` are falsy. -/
def mutationNumberMismatch : Option Nat → Nat → Bool
  | none, _ => false
  | some k, number => k != 0 && k != number

/-- Oracle data for one mutant yielded by the mutant generator:
`materializeError` is the exception `utils.create_module` raised (or `none`
on success), `result` what the timeout-bounded runner returned for it
(`none` = timeout), `duration` the measured mutant test duration. -/
structure GenItem where
  mutations : List Mutation
  materializeError : Option String
  result : Option MutantTestResult
  duration : ℚ
deriving DecidableEq

/-- Embedding of one iteration of the `for mutations, mutant_ast in
self.mutant_generator.mutate(...)` loop body of
`MutationController.mutate_module` (`controller.py` lines 162-173): the
`mutation_number` skip, `notify_mutation`, `create_mutant_module` (which
notifies an incompetent mutant itself on failure, lines 215-225), and
`run_tests_with_mutant` ending in `update_score_and_notify_views`. -/
def MutationController.processMutant (mutation_number : Option Nat)
    (st : ControllerState) (item : GenItem) : ControllerState :=
  let number := st.score.all_mutants + 1
  if mutationNumberMismatch mutation_number number then
    { st with score := st.score.inc_incompetent }
  else
    let st := st.notify (.mutationNotice number item.mutations)
    match item.materializeError with
    | some e =>
      let st := st.notify (.incompetentNotice 0 e 0)
      { st with score := st.score.inc_incompetent }
    | none => MutationController.update_score_and_notify_views st item.result item.duration

/-- One baseline test module as returned by `test_loader.load()` together
with the result of `run_test` on it (the unittest machinery is outside this
repository): whether the suite passed, how many tests ran, how long it took. -/
structure TestModuleRun where
  wasSuccessful : Bool
  testsRun : Nat
  duration : ℚ
deriving DecidableEq

/-- The exceptions `MutationController.run` distinguishes, plus the
`AssertionError` a broken generator raises (which `run` does not catch). -/
inductive ControllerError
  | testsFailAtOriginal
  | modulesLoader (name : String)
  | assertionError (msg : String)
deriving DecidableEq

/-- One target module as produced by `target_loader.load`, with the stream
of mutants its generator yields: the yielded items, then optionally a
terminal `AssertionError` message (a generator raises after yielding a
prefix). -/
structure TargetModuleInput where
  name : String
  genItems : List GenItem
  genError : Option String
deriving DecidableEq

/-- All external inputs of one controller run.  Loader exceptions are
modelled as a terminal error after the loader generator's yielded prefix. -/
structure ControllerInput where
  testModules : List TestModuleRun
  testLoadError : Option String
  targets : List TargetModuleInput
  targetLoadError : Option String
  mutation_number : Option Nat
deriving DecidableEq

/-- Loop of `MutationController.load_and_check_tests` (`controller.py` lines
107-120): accumulate passing modules, total duration and test count; raise
`TestsFailAtOriginal` at the first failing baseline result. -/
def MutationController.loadTestsLoop :
    List TestModuleRun → List TestModuleRun → ℚ → Nat →
    Except ControllerError (List TestModuleRun × ℚ × Nat)
  | [], acc, total_duration, number_of_tests => .ok (acc, total_duration, number_of_tests)
  | r :: rest, acc, total_duration, number_of_tests =>
    if r.wasSuccessful then
      MutationController.loadTestsLoop rest (acc ++ [r])
        (total_duration + r.duration) (number_of_tests + r.testsRun)
    else .error .testsFailAtOriginal

/-- Embedding of `MutationController.load_and_check_tests`: the loader's own
exception surfaces only after all yielded modules were checked. -/
def MutationController.load_and_check_tests (inp : ControllerInput) :
    Except ControllerError (List TestModuleRun × ℚ × Nat) :=
  match MutationController.loadTestsLoop inp.testModules [] 0 0 with
  | .error e => .error e
  | .ok out =>
    match inp.testLoadError with
    | some name => .error (.modulesLoader name)
    | none => .ok out

/-- Embedding of `MutationController.mutate_module` for one target: fold the
generator's yielded mutants through `processMutant`; a terminal
`AssertionError` of the generator then propagates (nothing in
`mutate_module` catches it). -/
def MutationController.mutate_module (mutation_number : Option Nat)
    (st : ControllerState) (t : TargetModuleInput) :
    ControllerState × Option ControllerError :=
  let st := t.genItems.foldl (MutationController.processMutant mutation_number) st
  match t.genError with
  | some e => (st, some (.assertionError e))
  | none => (st, none)

/-- The `for target_module, to_mutate in self.target_loader.load(...)` loop
of `MutationController.run_mutation_process`: mutate each target in turn; the
target loader's own exception surfaces after its yielded prefix; any error
aborts the loop and propagates. -/
def MutationController.targetsLoop (mutation_number : Option Nat)
    (st : ControllerState) :
    List TargetModuleInput → Option String → ControllerState × Option ControllerError
  | [], none => (st, none)
  | [], some name => (st, some (.modulesLoader name))
  | t :: rest, e? =>
    match MutationController.mutate_module mutation_number st t with
    | (st', none) => MutationController.targetsLoop mutation_number st' rest e?
    | (st', some err) => (st', some err)

/-- Outcome of `MutationController.run`: normal return (the process later
exits 0), `sys.exit(code)`, or an uncaught exception crashing the process. -/
inductive RunOutcome
  | normal (st : ControllerState)
  | exited (code : Int) (st : ControllerState)
  | crashed (msg : String) (st : ControllerState)
deriving DecidableEq

/-- Final controller state carried by a `RunOutcome`. -/
def RunOutcome.state : RunOutcome → ControllerState
  | .normal st => st
  | .exited _ st => st
  | .crashed _ st => st

/-- The crash message, when the run ended in an uncaught exception. -/
def RunOutcome.crashMessage : RunOutcome → Option String
  | .crashed msg _ => some msg
  | _ => none

/-- Embedding of `MutationController.run` together with
`run_mutation_process` (`controller.py` lines 72-99): notify initialization;
check the baseline suite (raising `TestsFailAtOriginal` or
`ModulesLoaderException`); on success create a fresh `MutationScore` and
mutate every target; `run` catches exactly the two fatal exceptions, exiting
-1 resp. -2, and completes normally otherwise.  An `AssertionError` from the
generator is caught nowhere and crashes the run.  (Coverage injection is
disabled, `mutate_covered=False`, and `KeyboardInterrupt` is not modelled.) -/
def MutationController.run (inp : ControllerInput) : RunOutcome :=
  let st : ControllerState := ⟨MutationScore.init, []⟩
  let st := st.notify .initNotice
  match MutationController.load_and_check_tests inp with
  | .error .testsFailAtOriginal => .exited (-1) (st.notify .originalTestsFailNotice)
  | .error (.modulesLoader name) => .exited (-2) (st.notify (.cantLoadNotice name))
  | .error (.assertionError e) => .crashed e st
  | .ok (_test_modules, _total_duration, number_of_tests) =>
    let st := st.notify (.passedNotice number_of_tests)
    let st := st.notify .startNotice
    let st := { st with score := MutationScore.init }
    match MutationController.targetsLoop inp.mutation_number st inp.targets inp.targetLoadError with
    | (st, none) => .normal (st.notify .endNotice)
    | (st, some .testsFailAtOriginal) => .exited (-1) (st.notify .originalTestsFailNotice)
    | (st, some (.modulesLoader name)) => .exited (-2) (st.notify (.cantLoadNotice name))
    | (st, some (.assertionError e)) => .crashed e st

/-!
Higher-order mutant generation (`HighOrderMutator.mutate`, `controller.py`
lines 472-494).  A mutation operator's `mutate(..., only_mutation=m)` call is
a lazy generator; we model it as the oracle `opMutate : Mutation → Rep →
List (Mutation × Rep)` listing everything it would yield on the given
representation.  `assert False` raises `AssertionError` with the given
message.
-/

/-- The `for mutation in mutations_to_apply:` loop of
`HighOrderMutator.mutate`: re-apply each mutation's operator to the
accumulating mutant; `StopIteration` on the first `__next__` is the
`assert False, 'no mutations!'` path.  Returns the applied mutations, the
final mutant, and each generator's remaining (un-consumed) yields. -/
def HighOrderMutator.applyMutations {Rep : Type}
    (opMutate : Mutation → Rep → List (Mutation × Rep)) :
    List Mutation → Rep → List Mutation → List (List (Mutation × Rep)) →
    Except String ((List Mutation × Rep) × List (List (Mutation × Rep)))
  | [], mutant, applied_mutations, generators => .ok ((applied_mutations, mutant), generators)
  | mutation :: rest, mutant, applied_mutations, generators =>
    match opMutate mutation mutant with
    | [] => .error "no mutations!"
    | (new_mutation, mutant') :: genRest =>
      HighOrderMutator.applyMutations opMutate rest mutant'
        (applied_mutations ++ [new_mutation]) (generators ++ [genRest])

/-- Embedding of `HighOrderMutator.finish_generators` (`controller.py` lines
503-509): resume each generator in reverse order expecting `StopIteration`;
any further yield is `assert False, 'too many mutations!'`. -/
def HighOrderMutator.finish_generators {Rep : Type}
    (generators : List (List (Mutation × Rep))) : Option String :=
  if generators.reverse.all (fun g => g.isEmpty) then none else some "too many mutations!"

/-- The `for mutations_to_apply in self.hom_strategy.generate(mutations):`
loop of `HighOrderMutator.mutate`: items yielded before a failing assertion
are paired with the terminal `AssertionError` message (the caller consumes
the prefix, then the resumed generator raises). -/
def HighOrderMutator.mutateLoop {Rep : Type}
    (opMutate : Mutation → Rep → List (Mutation × Rep)) (target_ast : Rep) :
    List (List Mutation) → List (List Mutation × Rep) × Option String
  | [] => ([], none)
  | group :: groups =>
    match HighOrderMutator.applyMutations opMutate group target_ast [] [] with
    | .error e => ([], some e)
    | .ok ((applied_mutations, mutant), generators) =>
      match HighOrderMutator.finish_generators generators with
      | some e => ([(applied_mutations, mutant)], some e)
      | none =>
        let q := HighOrderMutator.mutateLoop opMutate target_ast groups
        ((applied_mutations, mutant) :: q.1, q.2)

/-- Embedding of `HighOrderMutator.mutate`: feed the atomic mutation list to
the combination strategy and apply each resulting group to the base
representation. -/
def HighOrderMutator.mutate {Rep : Type}
    (opMutate : Mutation → Rep → List (Mutation × Rep))
    (hom_generate : List Mutation → List (List Mutation))
    (target_ast : Rep) (mutations : List Mutation) :
    List (List Mutation × Rep) × Option String :=
  HighOrderMutator.mutateLoop opMutate target_ast (hom_generate mutations)

/-!
Theorems.  General helper lemmas about the shared pieces first, then the
per-strategy lemmas, then one theorem per claim (with witnesses).
-/

theorem popFront_eq_some {l : List Mutation} {m : Mutation} {r : List Mutation}
    (h : popFront l = some (m, r)) : l = m :: r := by
  cases l with
  | nil => simp [popFront] at h
  | cons x xs =>
    simp only [popFront, Option.some_inj, Prod.mk.injEq] at h
    rw [h.1, h.2]

theorem popBack_eq_append {l : List Mutation} {m : Mutation} {r : List Mutation}
    (h : popBack l = some (m, r)) : l = r ++ [m] := by
  unfold popBack at h
  cases hl : l.getLast? with
  | none => rw [hl] at h; cases h
  | some x =>
    rw [hl] at h
    simp only [Option.some_inj, Prod.mk.injEq] at h
    have hne : l ≠ [] := by
      intro e; rw [e] at hl; simp at hl
    have hx : l.getLast hne = x := by
      have := List.getLast?_eq_getLast l hne
      rw [hl] at this
      exact (Option.some_inj.mp this).symm
    rw [← h.1, ← h.2, ← hx]
    exact (List.dropLast_append_getLast hne).symm

theorem pop_perm (front : Bool) {l : List Mutation} {m : Mutation} {r : List Mutation}
    (h : (if front then popFront l else popBack l) = some (m, r)) :
    l.Perm (m :: r) := by
  cases front with
  | true =>
    simp only [if_pos] at h
    rw [popFront_eq_some h]
  | false =>
    simp only [Bool.false_eq_true, if_neg] at h
    rw [popBack_eq_append h]
    exact List.perm_append_singleton m r

theorem pop_eq_none (front : Bool) {l : List Mutation}
    (h : (if front then popFront l else popBack l) = none) : l = [] := by
  cases front with
  | true =>
    simp only [if_pos] at h
    cases l with
    | nil => rfl
    | cons x xs => simp [popFront] at h
  | false =>
    simp only [Bool.false_eq_true, if_neg] at h
    unfold popBack at h
    cases hl : l.getLast? with
    | none => exact List.getLast?_eq_none_iff.mp hl
    | some x => rw [hl] at h; cases h

theorem mem_remove_bad_mutations {toApply avail : List Mutation} {flag : Bool}
    {b : Mutation} (hb : b ∈ remove_bad_mutations toApply avail flag) :
    b ∈ avail ∧ ∀ a ∈ toApply, isBadMutation a b flag = false := by
  unfold remove_bad_mutations at hb
  have h := List.mem_filter.mp hb
  refine ⟨h.1, ?_⟩
  intro a ha
  have h2 := h.2
  simp only [Bool.not_eq_true', List.any_eq_false] at h2
  exact Bool.eq_false_iff.mpr (h2 a ha)

theorem remove_bad_mutations_sublist (toApply avail : List Mutation) (flag : Bool) :
    (remove_bad_mutations toApply avail flag).Sublist avail :=
  List.filter_sublist avail

theorem isBadMutation_symm (a b : Mutation) (flag : Bool) :
    isBadMutation a b flag = isBadMutation b a flag := by
  rw [Bool.eq_iff_iff]
  simp only [isBadMutation, Bool.or_eq_true, Bool.and_eq_true, beq_iff_eq]
  constructor <;> (rintro (((h | h) | h) | h) <;> tauto)

theorem locationConflict_of_isBadMutation {a b : Mutation} {flag : Bool}
    (h : isBadMutation a b flag = false) :
    locationConflict a b = false ∧ locationConflict b a = false := by
  have h' : isBadMutation b a flag = false := by rw [isBadMutation_symm]; exact h
  unfold isBadMutation at h h'
  unfold locationConflict
  simp only [Bool.or_eq_false_iff] at h h' ⊢
  exact ⟨⟨⟨h.1.1.1, h.1.1.2⟩, h.1.2⟩, ⟨⟨h'.1.1.1, h'.1.1.2⟩, h'.1.2⟩⟩

theorem FirstToLastHOMStrategy.ftl_applyLoop_pairwise (order fuel : Nat) :
    ∀ (toApply muts avail : List Mutation) (front : Bool),
    toApply.Pairwise (fun a b => isBadMutation a b true = false) →
    (∀ a ∈ toApply, ∀ b ∈ avail, isBadMutation a b true = false) →
    ((FirstToLastHOMStrategy.applyLoop order fuel toApply muts avail front).1).Pairwise
      (fun a b => isBadMutation a b true = false) := by
  induction fuel with
  | zero =>
    intro toApply muts avail front hpw _
    simpa [FirstToLastHOMStrategy.applyLoop] using hpw
  | succ fuel ih =>
    intro toApply muts avail front hpw hclean
    simp only [FirstToLastHOMStrategy.applyLoop]
    by_cases hlt : toApply.length < order
    · rw [if_pos hlt]
      cases hpop : (if front then popFront avail else popBack avail) with
      | none => exact hpw
      | some p =>
        obtain ⟨m, rest⟩ := p
        have hperm := pop_perm front hpop
        have hm : m ∈ avail := hperm.mem_iff.mpr (List.mem_cons_self m rest)
        apply ih
        · rw [List.pairwise_append]
          refine ⟨hpw, List.pairwise_singleton .., ?_⟩
          intro a ha b hb
          rw [List.mem_singleton] at hb
          rw [hb]
          exact hclean a ha m hm
        · intro a ha b hb
          exact (mem_remove_bad_mutations hb).2 a ha
    · rw [if_neg hlt]
      exact hpw

theorem FirstToLastHOMStrategy.ftl_applyLoop_fst_append (order fuel : Nat) :
    ∀ (toApply muts avail : List Mutation) (front : Bool),
    ∃ t, (FirstToLastHOMStrategy.applyLoop order fuel toApply muts avail front).1
      = toApply ++ t := by
  induction fuel with
  | zero =>
    intro toApply muts avail front
    exact ⟨[], by simp [FirstToLastHOMStrategy.applyLoop]⟩
  | succ fuel ih =>
    intro toApply muts avail front
    simp only [FirstToLastHOMStrategy.applyLoop]
    by_cases hlt : toApply.length < order
    · rw [if_pos hlt]
      cases hpop : (if front then popFront avail else popBack avail) with
      | none => exact ⟨[], by simp⟩
      | some p =>
        obtain ⟨m, rest⟩ := p
        obtain ⟨t, ht⟩ := ih (toApply ++ [m]) (muts.erase m)
          (remove_bad_mutations (toApply ++ [m]) rest true) (!front)
        exact ⟨m :: t, by rw [ht]; simp⟩
    · rw [if_neg hlt]
      exact ⟨[], by simp⟩

theorem FirstToLastHOMStrategy.ftl_applyLoop_fst_ne_nil (order fuel : Nat)
    (muts avail : List Mutation) (front : Bool)
    (ho : 1 ≤ order) (ha : avail ≠ []) (hf : fuel ≠ 0) :
    (FirstToLastHOMStrategy.applyLoop order fuel [] muts avail front).1 ≠ [] := by
  cases fuel with
  | zero => exact absurd rfl hf
  | succ fuel =>
    simp only [FirstToLastHOMStrategy.applyLoop]
    rw [if_pos (by simpa using ho)]
    cases hpop : (if front then popFront avail else popBack avail) with
    | none => exact absurd (pop_eq_none front hpop) ha
    | some p =>
      obtain ⟨m, rest⟩ := p
      obtain ⟨t, ht⟩ := FirstToLastHOMStrategy.ftl_applyLoop_fst_append order fuel
        ([] ++ [m]) (muts.erase m) (remove_bad_mutations ([] ++ [m]) rest true) (!front)
      simp only [List.nil_append] at ht ⊢
      rw [ht]
      simp

theorem FirstToLastHOMStrategy.ftl_applyLoop_multiset (order fuel : Nat) :
    ∀ (toApply muts avail : List Mutation) (front : Bool),
    (avail : Multiset Mutation) ≤ (muts : Multiset Mutation) →
    ((FirstToLastHOMStrategy.applyLoop order fuel toApply muts avail front).2 : Multiset Mutation)
      + ((FirstToLastHOMStrategy.applyLoop order fuel toApply muts avail front).1 : Multiset Mutation)
      = (muts : Multiset Mutation) + (toApply : Multiset Mutation) := by
  induction fuel with
  | zero =>
    intro toApply muts avail front _
    simp [FirstToLastHOMStrategy.applyLoop]
  | succ fuel ih =>
    intro toApply muts avail front hsub
    simp only [FirstToLastHOMStrategy.applyLoop]
    by_cases hlt : toApply.length < order
    · rw [if_pos hlt]
      cases hpop : (if front then popFront avail else popBack avail) with
      | none => simp
      | some p =>
        obtain ⟨m, rest⟩ := p
        have hperm := pop_perm front hpop
        have havail : (avail : Multiset Mutation) = m ::ₘ (rest : Multiset Mutation) := by
          exact_mod_cast Multiset.coe_eq_coe.mpr hperm
        have hm : m ∈ (muts : Multiset Mutation) := by
          have : m ∈ (avail : Multiset Mutation) := by
            rw [havail]; exact Multiset.mem_cons_self m _
          exact Multiset.mem_of_le hsub this
        have hrest : ((remove_bad_mutations (toApply ++ [m]) rest true : List Mutation) : Multiset Mutation)
            ≤ ((muts.erase m : List Mutation) : Multiset Mutation) := by
          calc ((remove_bad_mutations (toApply ++ [m]) rest true : List Mutation) : Multiset Mutation)
              ≤ (rest : Multiset Mutation) := by
                rw [Multiset.coe_le]
                exact (remove_bad_mutations_sublist _ _ _).subperm
            _ = (avail : Multiset Mutation).erase m := by
                rw [havail, Multiset.erase_cons_head]
            _ ≤ (muts : Multiset Mutation).erase m := Multiset.erase_le_erase m hsub
            _ = ((muts.erase m : List Mutation) : Multiset Mutation) := Multiset.coe_erase muts m
        have h := ih (toApply ++ [m]) (muts.erase m)
          (remove_bad_mutations (toApply ++ [m]) rest true) (!front) hrest
        rw [h]
        rw [← Multiset.coe_erase]
        have hcons : m ::ₘ (muts : Multiset Mutation).erase m = (muts : Multiset Mutation) :=
          Multiset.cons_erase hm
        have hsplit : ((toApply ++ [m] : List Mutation) : Multiset Mutation)
            = (toApply : Multiset Mutation) + {m} := by
          rw [← Multiset.coe_singleton, ← Multiset.coe_add]
        rw [hsplit, add_comm (toApply : Multiset Mutation) ({m} : Multiset Mutation),
          ← add_assoc, add_comm ((muts : Multiset Mutation).erase m) ({m} : Multiset Mutation),
          Multiset.singleton_add, hcons]
    · rw [if_neg hlt]

theorem FirstToLastHOMStrategy.ftl_generateLoop_pairwise (order : Nat) :
    ∀ (fuel : Nat) (muts : List Mutation),
    ∀ g ∈ FirstToLastHOMStrategy.generateLoop order fuel muts,
    g.Pairwise (fun a b => isBadMutation a b true = false) := by
  intro fuel
  induction fuel with
  | zero =>
    intro muts g hg
    simp [FirstToLastHOMStrategy.generateLoop] at hg
  | succ fuel ih =>
    intro muts g hg
    simp only [FirstToLastHOMStrategy.generateLoop] at hg
    by_cases hm : muts = []
    · rw [if_pos hm] at hg
      simp at hg
    · rw [if_neg hm] at hg
      rcases List.mem_cons.mp hg with h | h
      · rw [h]
        exact FirstToLastHOMStrategy.ftl_applyLoop_pairwise order muts.length [] muts muts true
          (List.Pairwise.nil) (by intro a ha; simp at ha)
      · exact ih _ g h

theorem FirstToLastHOMStrategy.ftl_generateLoop_flatten_perm (order : Nat) (ho : 1 ≤ order) :
    ∀ (fuel : Nat) (muts : List Mutation), muts.length ≤ fuel →
    ((FirstToLastHOMStrategy.generateLoop order fuel muts).flatten).Perm muts := by
  intro fuel
  induction fuel with
  | zero =>
    intro muts hlen
    have : muts = [] := List.length_eq_zero.mp (Nat.le_zero.mp hlen)
    rw [this]
    simp [FirstToLastHOMStrategy.generateLoop]
  | succ fuel ih =>
    intro muts hlen
    simp only [FirstToLastHOMStrategy.generateLoop]
    by_cases hm : muts = []
    · rw [if_pos hm, hm]
      simp
    · rw [if_neg hm]
      have hms := FirstToLastHOMStrategy.ftl_applyLoop_multiset order muts.length [] muts muts true
        le_rfl
      simp only [Multiset.coe_nil, add_zero] at hms
      have hne := FirstToLastHOMStrategy.ftl_applyLoop_fst_ne_nil order muts.length muts muts true
        ho hm (by simpa using fun h => hm (List.length_eq_zero.mp h))
      have hcard : (FirstToLastHOMStrategy.applyLoop order muts.length [] muts muts true).2.length
          + (FirstToLastHOMStrategy.applyLoop order muts.length [] muts muts true).1.length
          = muts.length := by
        have := congrArg Multiset.card hms
        simpa using this
      have hglen : 1 ≤ (FirstToLastHOMStrategy.applyLoop order muts.length [] muts muts true).1.length :=
        Nat.one_le_iff_ne_zero.mpr (fun h => hne (List.length_eq_zero.mp h))
      have hlen2 : (FirstToLastHOMStrategy.applyLoop order muts.length [] muts muts true).2.length ≤ fuel := by
        have hlt : muts.length ≤ fuel + 1 := hlen
        omega
      have hperm2 := ih _ hlen2
      rw [List.flatten_cons]
      have hperm3 : ((FirstToLastHOMStrategy.applyLoop order muts.length [] muts muts true).1
          ++ (FirstToLastHOMStrategy.applyLoop order muts.length [] muts muts true).2).Perm muts := by
        rw [← Multiset.coe_eq_coe, ← Multiset.coe_add, add_comm]
        exact hms
      exact (List.Perm.append_left _ hperm2).trans hperm3

theorem EachChoiceHOMStrategy.ec_applyLoop_pairwise (order fuel : Nat) :
    ∀ (toApply muts avail : List Mutation),
    toApply.Pairwise (fun a b => isBadMutation a b true = false) →
    (∀ a ∈ toApply, ∀ b ∈ avail, isBadMutation a b true = false) →
    ((EachChoiceHOMStrategy.applyLoop order fuel toApply muts avail).1).Pairwise
      (fun a b => isBadMutation a b true = false) := by
  induction fuel with
  | zero =>
    intro toApply muts avail hpw _
    simpa [EachChoiceHOMStrategy.applyLoop] using hpw
  | succ fuel ih =>
    intro toApply muts avail hpw hclean
    simp only [EachChoiceHOMStrategy.applyLoop]
    by_cases hlt : toApply.length < order
    · rw [if_pos hlt]
      cases hpop : popFront avail with
      | none => exact hpw
      | some p =>
        obtain ⟨m, rest⟩ := p
        have hav := popFront_eq_some hpop
        have hm : m ∈ avail := by rw [hav]; exact List.mem_cons_self m rest
        apply ih
        · rw [List.pairwise_append]
          refine ⟨hpw, List.pairwise_singleton .., ?_⟩
          intro a ha b hb
          rw [List.mem_singleton] at hb
          rw [hb]
          exact hclean a ha m hm
        · intro a ha b hb
          exact (mem_remove_bad_mutations hb).2 a ha
    · rw [if_neg hlt]
      exact hpw

theorem EachChoiceHOMStrategy.ec_applyLoop_fst_append (order fuel : Nat) :
    ∀ (toApply muts avail : List Mutation),
    ∃ t, (EachChoiceHOMStrategy.applyLoop order fuel toApply muts avail).1
      = toApply ++ t := by
  induction fuel with
  | zero =>
    intro toApply muts avail
    exact ⟨[], by simp [EachChoiceHOMStrategy.applyLoop]⟩
  | succ fuel ih =>
    intro toApply muts avail
    simp only [EachChoiceHOMStrategy.applyLoop]
    by_cases hlt : toApply.length < order
    · rw [if_pos hlt]
      cases hpop : popFront avail with
      | none => exact ⟨[], by simp⟩
      | some p =>
        obtain ⟨m, rest⟩ := p
        obtain ⟨t, ht⟩ := ih (toApply ++ [m]) (muts.erase m)
          (remove_bad_mutations (toApply ++ [m]) rest true)
        exact ⟨m :: t, by rw [ht]; simp⟩
    · rw [if_neg hlt]
      exact ⟨[], by simp⟩

theorem EachChoiceHOMStrategy.ec_applyLoop_fst_ne_nil (order fuel : Nat)
    (muts avail : List Mutation)
    (ho : 1 ≤ order) (ha : avail ≠ []) (hf : fuel ≠ 0) :
    (EachChoiceHOMStrategy.applyLoop order fuel [] muts avail).1 ≠ [] := by
  cases fuel with
  | zero => exact absurd rfl hf
  | succ fuel =>
    simp only [EachChoiceHOMStrategy.applyLoop]
    rw [if_pos (by simpa using ho)]
    cases hpop : popFront avail with
    | none =>
      cases avail with
      | nil => exact absurd rfl ha
      | cons x xs => simp [popFront] at hpop
    | some p =>
      obtain ⟨m, rest⟩ := p
      obtain ⟨t, ht⟩ := EachChoiceHOMStrategy.ec_applyLoop_fst_append order fuel
        ([] ++ [m]) (muts.erase m) (remove_bad_mutations ([] ++ [m]) rest true)
      simp only [List.nil_append] at ht ⊢
      rw [ht]
      simp

theorem EachChoiceHOMStrategy.ec_applyLoop_multiset (order fuel : Nat) :
    ∀ (toApply muts avail : List Mutation),
    (avail : Multiset Mutation) ≤ (muts : Multiset Mutation) →
    ((EachChoiceHOMStrategy.applyLoop order fuel toApply muts avail).2 : Multiset Mutation)
      + ((EachChoiceHOMStrategy.applyLoop order fuel toApply muts avail).1 : Multiset Mutation)
      = (muts : Multiset Mutation) + (toApply : Multiset Mutation) := by
  induction fuel with
  | zero =>
    intro toApply muts avail _
    simp [EachChoiceHOMStrategy.applyLoop]
  | succ fuel ih =>
    intro toApply muts avail hsub
    simp only [EachChoiceHOMStrategy.applyLoop]
    by_cases hlt : toApply.length < order
    · rw [if_pos hlt]
      cases hpop : popFront avail with
      | none => simp
      | some p =>
        obtain ⟨m, rest⟩ := p
        have hav := popFront_eq_some hpop
        have havail : (avail : Multiset Mutation) = m ::ₘ (rest : Multiset Mutation) := by
          rw [hav]; rfl
        have hm : m ∈ (muts : Multiset Mutation) := by
          have : m ∈ (avail : Multiset Mutation) := by
            rw [havail]; exact Multiset.mem_cons_self m _
          exact Multiset.mem_of_le hsub this
        have hrest : ((remove_bad_mutations (toApply ++ [m]) rest true : List Mutation) : Multiset Mutation)
            ≤ ((muts.erase m : List Mutation) : Multiset Mutation) := by
          calc ((remove_bad_mutations (toApply ++ [m]) rest true : List Mutation) : Multiset Mutation)
              ≤ (rest : Multiset Mutation) := by
                rw [Multiset.coe_le]
                exact (remove_bad_mutations_sublist _ _ _).subperm
            _ = (avail : Multiset Mutation).erase m := by
                rw [havail, Multiset.erase_cons_head]
            _ ≤ (muts : Multiset Mutation).erase m := Multiset.erase_le_erase m hsub
            _ = ((muts.erase m : List Mutation) : Multiset Mutation) := Multiset.coe_erase muts m
        have h := ih (toApply ++ [m]) (muts.erase m)
          (remove_bad_mutations (toApply ++ [m]) rest true) hrest
        rw [h]
        rw [← Multiset.coe_erase]
        have hcons : m ::ₘ (muts : Multiset Mutation).erase m = (muts : Multiset Mutation) :=
          Multiset.cons_erase hm
        have hsplit : ((toApply ++ [m] : List Mutation) : Multiset Mutation)
            = (toApply : Multiset Mutation) + {m} := by
          rw [← Multiset.coe_singleton, ← Multiset.coe_add]
        rw [hsplit, add_comm (toApply : Multiset Mutation) ({m} : Multiset Mutation),
          ← add_assoc, add_comm ((muts : Multiset Mutation).erase m) ({m} : Multiset Mutation),
          Multiset.singleton_add, hcons]
    · rw [if_neg hlt]

theorem EachChoiceHOMStrategy.ec_generateLoop_pairwise (order : Nat) :
    ∀ (fuel : Nat) (muts : List Mutation),
    ∀ g ∈ EachChoiceHOMStrategy.generateLoop order fuel muts,
    g.Pairwise (fun a b => isBadMutation a b true = false) := by
  intro fuel
  induction fuel with
  | zero =>
    intro muts g hg
    simp [EachChoiceHOMStrategy.generateLoop] at hg
  | succ fuel ih =>
    intro muts g hg
    simp only [EachChoiceHOMStrategy.generateLoop] at hg
    by_cases hm : muts = []
    · rw [if_pos hm] at hg
      simp at hg
    · rw [if_neg hm] at hg
      rcases List.mem_cons.mp hg with h | h
      · rw [h]
        exact EachChoiceHOMStrategy.ec_applyLoop_pairwise order muts.length [] muts muts
          (List.Pairwise.nil) (by intro a ha; simp at ha)
      · exact ih _ g h

theorem EachChoiceHOMStrategy.ec_generateLoop_flatten_perm (order : Nat) (ho : 1 ≤ order) :
    ∀ (fuel : Nat) (muts : List Mutation), muts.length ≤ fuel →
    ((EachChoiceHOMStrategy.generateLoop order fuel muts).flatten).Perm muts := by
  intro fuel
  induction fuel with
  | zero =>
    intro muts hlen
    have : muts = [] := List.length_eq_zero.mp (Nat.le_zero.mp hlen)
    rw [this]
    simp [EachChoiceHOMStrategy.generateLoop]
  | succ fuel ih =>
    intro muts hlen
    simp only [EachChoiceHOMStrategy.generateLoop]
    by_cases hm : muts = []
    · rw [if_pos hm, hm]
      simp
    · rw [if_neg hm]
      have hms := EachChoiceHOMStrategy.ec_applyLoop_multiset order muts.length [] muts muts
        le_rfl
      simp only [Multiset.coe_nil, add_zero] at hms
      have hne := EachChoiceHOMStrategy.ec_applyLoop_fst_ne_nil order muts.length muts muts
        ho hm (by simpa using fun h => hm (List.length_eq_zero.mp h))
      have hcard : (EachChoiceHOMStrategy.applyLoop order muts.length [] muts muts).2.length
          + (EachChoiceHOMStrategy.applyLoop order muts.length [] muts muts).1.length
          = muts.length := by
        have := congrArg Multiset.card hms
        simpa using this
      have hglen : 1 ≤ (EachChoiceHOMStrategy.applyLoop order muts.length [] muts muts).1.length :=
        Nat.one_le_iff_ne_zero.mpr (fun h => hne (List.length_eq_zero.mp h))
      have hlen2 : (EachChoiceHOMStrategy.applyLoop order muts.length [] muts muts).2.length ≤ fuel := by
        have hlt : muts.length ≤ fuel + 1 := hlen
        omega
      have hperm2 := ih _ hlen2
      rw [List.flatten_cons]
      have hperm3 : ((EachChoiceHOMStrategy.applyLoop order muts.length [] muts muts).1
          ++ (EachChoiceHOMStrategy.applyLoop order muts.length [] muts muts).2).Perm muts := by
        rw [← Multiset.coe_eq_coe, ← Multiset.coe_add, add_comm]
        exact hms
      exact (List.Perm.append_left _ hperm2).trans hperm3

theorem RandomHOMStrategy.rand_applyLoop_pairwise (order fuel : Nat) :
    ∀ (toApply muts avail : List Mutation),
    toApply.Pairwise (fun a b => isBadMutation a b true = false) →
    (∀ a ∈ toApply, ∀ b ∈ avail, isBadMutation a b true = false) →
    ((RandomHOMStrategy.applyLoop order fuel toApply muts avail).1).Pairwise
      (fun a b => isBadMutation a b true = false) := by
  induction fuel with
  | zero =>
    intro toApply muts avail hpw _
    simpa [RandomHOMStrategy.applyLoop] using hpw
  | succ fuel ih =>
    intro toApply muts avail hpw hclean
    simp only [RandomHOMStrategy.applyLoop]
    by_cases hlt : toApply.length < order
    · rw [if_pos hlt]
      cases hpop : popFront avail with
      | none => exact hpw
      | some p =>
        obtain ⟨m, rest⟩ := p
        have hav := popFront_eq_some hpop
        have hm : m ∈ avail := by rw [hav]; exact List.mem_cons_self m rest
        apply ih
        · rw [List.pairwise_append]
          refine ⟨hpw, List.pairwise_singleton .., ?_⟩
          intro a ha b hb
          rw [List.mem_singleton] at hb
          rw [hb]
          exact hclean a ha m hm
        · intro a ha b hb
          exact (mem_remove_bad_mutations hb).2 a ha
    · rw [if_neg hlt]
      exact hpw

theorem RandomHOMStrategy.rand_applyLoop_fst_append (order fuel : Nat) :
    ∀ (toApply muts avail : List Mutation),
    ∃ t, (RandomHOMStrategy.applyLoop order fuel toApply muts avail).1
      = toApply ++ t := by
  induction fuel with
  | zero =>
    intro toApply muts avail
    exact ⟨[], by simp [RandomHOMStrategy.applyLoop]⟩
  | succ fuel ih =>
    intro toApply muts avail
    simp only [RandomHOMStrategy.applyLoop]
    by_cases hlt : toApply.length < order
    · rw [if_pos hlt]
      cases hpop : popFront avail with
      | none => exact ⟨[], by simp⟩
      | some p =>
        obtain ⟨m, rest⟩ := p
        obtain ⟨t, ht⟩ := ih (toApply ++ [m]) (muts.erase m)
          (remove_bad_mutations (toApply ++ [m]) rest true)
        exact ⟨m :: t, by rw [ht]; simp⟩
    · rw [if_neg hlt]
      exact ⟨[], by simp⟩

theorem RandomHOMStrategy.rand_applyLoop_fst_ne_nil (order fuel : Nat)
    (muts avail : List Mutation)
    (ho : 1 ≤ order) (ha : avail ≠ []) (hf : fuel ≠ 0) :
    (RandomHOMStrategy.applyLoop order fuel [] muts avail).1 ≠ [] := by
  cases fuel with
  | zero => exact absurd rfl hf
  | succ fuel =>
    simp only [RandomHOMStrategy.applyLoop]
    rw [if_pos (by simpa using ho)]
    cases hpop : popFront avail with
    | none =>
      cases avail with
      | nil => exact absurd rfl ha
      | cons x xs => simp [popFront] at hpop
    | some p =>
      obtain ⟨m, rest⟩ := p
      obtain ⟨t, ht⟩ := RandomHOMStrategy.rand_applyLoop_fst_append order fuel
        ([] ++ [m]) (muts.erase m) (remove_bad_mutations ([] ++ [m]) rest true)
      simp only [List.nil_append] at ht ⊢
      rw [ht]
      simp

theorem RandomHOMStrategy.rand_applyLoop_multiset (order fuel : Nat) :
    ∀ (toApply muts avail : List Mutation),
    (avail : Multiset Mutation) ≤ (muts : Multiset Mutation) →
    ((RandomHOMStrategy.applyLoop order fuel toApply muts avail).2 : Multiset Mutation)
      + ((RandomHOMStrategy.applyLoop order fuel toApply muts avail).1 : Multiset Mutation)
      = (muts : Multiset Mutation) + (toApply : Multiset Mutation) := by
  induction fuel with
  | zero =>
    intro toApply muts avail _
    simp [RandomHOMStrategy.applyLoop]
  | succ fuel ih =>
    intro toApply muts avail hsub
    simp only [RandomHOMStrategy.applyLoop]
    by_cases hlt : toApply.length < order
    · rw [if_pos hlt]
      cases hpop : popFront avail with
      | none => simp
      | some p =>
        obtain ⟨m, rest⟩ := p
        have hav := popFront_eq_some hpop
        have havail : (avail : Multiset Mutation) = m ::ₘ (rest : Multiset Mutation) := by
          rw [hav]; rfl
        have hm : m ∈ (muts : Multiset Mutation) := by
          have : m ∈ (avail : Multiset Mutation) := by
            rw [havail]; exact Multiset.mem_cons_self m _
          exact Multiset.mem_of_le hsub this
        have hrest : ((remove_bad_mutations (toApply ++ [m]) rest true : List Mutation) : Multiset Mutation)
            ≤ ((muts.erase m : List Mutation) : Multiset Mutation) := by
          calc ((remove_bad_mutations (toApply ++ [m]) rest true : List Mutation) : Multiset Mutation)
              ≤ (rest : Multiset Mutation) := by
                rw [Multiset.coe_le]
                exact (remove_bad_mutations_sublist _ _ _).subperm
            _ = (avail : Multiset Mutation).erase m := by
                rw [havail, Multiset.erase_cons_head]
            _ ≤ (muts : Multiset Mutation).erase m := Multiset.erase_le_erase m hsub
            _ = ((muts.erase m : List Mutation) : Multiset Mutation) := Multiset.coe_erase muts m
        have h := ih (toApply ++ [m]) (muts.erase m)
          (remove_bad_mutations (toApply ++ [m]) rest true) hrest
        rw [h]
        rw [← Multiset.coe_erase]
        have hcons : m ::ₘ (muts : Multiset Mutation).erase m = (muts : Multiset Mutation) :=
          Multiset.cons_erase hm
        have hsplit : ((toApply ++ [m] : List Mutation) : Multiset Mutation)
            = (toApply : Multiset Mutation) + {m} := by
          rw [← Multiset.coe_singleton, ← Multiset.coe_add]
        rw [hsplit, add_comm (toApply : Multiset Mutation) ({m} : Multiset Mutation),
          ← add_assoc, add_comm ((muts : Multiset Mutation).erase m) ({m} : Multiset Mutation),
          Multiset.singleton_add, hcons]
    · rw [if_neg hlt]

theorem RandomHOMStrategy.rand_generateLoop_pairwise (order : Nat) :
    ∀ (fuel : Nat) (muts : List Mutation),
    ∀ g ∈ RandomHOMStrategy.generateLoop order fuel muts,
    g.Pairwise (fun a b => isBadMutation a b true = false) := by
  intro fuel
  induction fuel with
  | zero =>
    intro muts g hg
    simp [RandomHOMStrategy.generateLoop] at hg
  | succ fuel ih =>
    intro muts g hg
    simp only [RandomHOMStrategy.generateLoop] at hg
    by_cases hm : muts = []
    · rw [if_pos hm] at hg
      simp at hg
    · rw [if_neg hm] at hg
      rcases List.mem_cons.mp hg with h | h
      · rw [h]
        exact RandomHOMStrategy.rand_applyLoop_pairwise order muts.length [] muts muts
          (List.Pairwise.nil) (by intro a ha; simp at ha)
      · exact ih _ g h

theorem RandomHOMStrategy.rand_generateLoop_flatten_perm (order : Nat) (ho : 1 ≤ order) :
    ∀ (fuel : Nat) (muts : List Mutation), muts.length ≤ fuel →
    ((RandomHOMStrategy.generateLoop order fuel muts).flatten).Perm muts := by
  intro fuel
  induction fuel with
  | zero =>
    intro muts hlen
    have : muts = [] := List.length_eq_zero.mp (Nat.le_zero.mp hlen)
    rw [this]
    simp [RandomHOMStrategy.generateLoop]
  | succ fuel ih =>
    intro muts hlen
    simp only [RandomHOMStrategy.generateLoop]
    by_cases hm : muts = []
    · rw [if_pos hm, hm]
      simp
    · rw [if_neg hm]
      have hms := RandomHOMStrategy.rand_applyLoop_multiset order muts.length [] muts muts
        le_rfl
      simp only [Multiset.coe_nil, add_zero] at hms
      have hne := RandomHOMStrategy.rand_applyLoop_fst_ne_nil order muts.length muts muts
        ho hm (by simpa using fun h => hm (List.length_eq_zero.mp h))
      have hcard : (RandomHOMStrategy.applyLoop order muts.length [] muts muts).2.length
          + (RandomHOMStrategy.applyLoop order muts.length [] muts muts).1.length
          = muts.length := by
        have := congrArg Multiset.card hms
        simpa using this
      have hglen : 1 ≤ (RandomHOMStrategy.applyLoop order muts.length [] muts muts).1.length :=
        Nat.one_le_iff_ne_zero.mpr (fun h => hne (List.length_eq_zero.mp h))
      have hlen2 : (RandomHOMStrategy.applyLoop order muts.length [] muts muts).2.length ≤ fuel := by
        have hlt : muts.length ≤ fuel + 1 := hlen
        omega
      have hperm2 := ih _ hlen2
      rw [List.flatten_cons]
      have hperm3 : ((RandomHOMStrategy.applyLoop order muts.length [] muts muts).1
          ++ (RandomHOMStrategy.applyLoop order muts.length [] muts muts).2).Perm muts := by
        rw [← Multiset.coe_eq_coe, ← Multiset.coe_add, add_comm]
        exact hms
      exact (List.Perm.append_left _ hperm2).trans hperm3

theorem BetweenOperatorsHOMStrategy.bo_applyLoop_pairwise (order fuel : Nat) :
    ∀ (toApply : List Mutation) (usage : Mutation → Nat) (nu avail : List Mutation),
    toApply.Pairwise (fun a b => isBadMutation a b false = false) →
    (∀ a ∈ toApply, ∀ b ∈ avail, isBadMutation a b false = false) →
    ((BetweenOperatorsHOMStrategy.applyLoop order fuel toApply usage nu avail).1).Pairwise
      (fun a b => isBadMutation a b false = false) := by
  induction fuel with
  | zero =>
    intro toApply usage nu avail hpw _
    simpa [BetweenOperatorsHOMStrategy.applyLoop] using hpw
  | succ fuel ih =>
    intro toApply usage nu avail hpw hclean
    simp only [BetweenOperatorsHOMStrategy.applyLoop]
    by_cases hlt : toApply.length < order
    · rw [if_pos hlt]
      cases hpop : popFront avail with
      | none => exact hpw
      | some p =>
        obtain ⟨m, rest⟩ := p
        have hav := popFront_eq_some hpop
        have hm : m ∈ avail := by rw [hav]; exact List.mem_cons_self m rest
        apply ih
        · rw [List.pairwise_append]
          refine ⟨hpw, List.pairwise_singleton .., ?_⟩
          intro a ha b hb
          rw [List.mem_singleton] at hb
          rw [hb]
          exact hclean a ha m hm
        · intro a ha b hb
          exact (mem_remove_bad_mutations hb).2 a ha
    · rw [if_neg hlt]
      exact hpw

theorem BetweenOperatorsHOMStrategy.applyLoop_fst_count (order fuel : Nat) :
    ∀ (toApply : List Mutation) (usage : Mutation → Nat) (nu avail : List Mutation),
    ∃ t, (BetweenOperatorsHOMStrategy.applyLoop order fuel toApply usage nu avail).1
        = toApply ++ t ∧
      (∀ x ∈ t, x ∈ avail) ∧
      (∀ x, (BetweenOperatorsHOMStrategy.applyLoop order fuel toApply usage nu avail).2.1 x
        = usage x + t.count x) := by
  induction fuel with
  | zero =>
    intro toApply usage nu avail
    exact ⟨[], by simp [BetweenOperatorsHOMStrategy.applyLoop]⟩
  | succ fuel ih =>
    intro toApply usage nu avail
    simp only [BetweenOperatorsHOMStrategy.applyLoop]
    by_cases hlt : toApply.length < order
    · rw [if_pos hlt]
      cases hpop : popFront avail with
      | none => exact ⟨[], by simp⟩
      | some p =>
        obtain ⟨m, rest⟩ := p
        have hav := popFront_eq_some hpop
        obtain ⟨t, ht, htmem, htcount⟩ := ih (toApply ++ [m])
          (fun x => if x = m then usage x + 1 else usage x)
          (if usage m = 0 then nu.erase m else nu)
          (remove_bad_mutations (toApply ++ [m]) rest false)
        refine ⟨m :: t, ?_, ?_, ?_⟩
        · rw [ht]; simp
        · intro x hx
          rcases List.mem_cons.mp hx with h | h
          · rw [h, hav]; exact List.mem_cons_self m rest
          · have hx' := htmem x h
            have := (mem_remove_bad_mutations hx').1
            rw [hav]
            exact List.mem_cons_of_mem m this
        · intro x
          rw [htcount x]
          by_cases hxm : x = m
          · rw [if_pos hxm, hxm, List.count_cons_self]
            omega
          · rw [if_neg hxm, List.count_cons_of_ne hxm]
    · rw [if_neg hlt]
      exact ⟨[], by simp⟩

theorem BetweenOperatorsHOMStrategy.applyLoop_notused (order fuel : Nat)
    (mutations : List Mutation) :
    ∀ (toApply : List Mutation) (usage : Mutation → Nat) (nu avail : List Mutation),
    (∀ x ∈ avail, x ∈ mutations) →
    (∀ x, x ∈ nu ↔ x ∈ mutations ∧ usage x = 0) →
    nu.Nodup →
    ((∀ x, x ∈ (BetweenOperatorsHOMStrategy.applyLoop order fuel toApply usage nu avail).2.2 ↔
        x ∈ mutations ∧
          (BetweenOperatorsHOMStrategy.applyLoop order fuel toApply usage nu avail).2.1 x = 0) ∧
      ((BetweenOperatorsHOMStrategy.applyLoop order fuel toApply usage nu avail).2.2).Nodup ∧
      (BetweenOperatorsHOMStrategy.applyLoop order fuel toApply usage nu avail).2.2.length
        ≤ nu.length) := by
  induction fuel with
  | zero =>
    intro toApply usage nu avail hav hinv hnd
    simp only [BetweenOperatorsHOMStrategy.applyLoop]
    exact ⟨hinv, hnd, le_rfl⟩
  | succ fuel ih =>
    intro toApply usage nu avail hav hinv hnd
    simp only [BetweenOperatorsHOMStrategy.applyLoop]
    by_cases hlt : toApply.length < order
    · rw [if_pos hlt]
      cases hpop : popFront avail with
      | none => exact ⟨hinv, hnd, le_rfl⟩
      | some p =>
        obtain ⟨m, rest⟩ := p
        have hmav : m ∈ avail := by
          rw [popFront_eq_some hpop]; exact List.mem_cons_self m rest
        have hmmut : m ∈ mutations := hav m hmav
        have havrest : ∀ x ∈ remove_bad_mutations (toApply ++ [m]) rest false, x ∈ mutations := by
          intro x hx
          have := (mem_remove_bad_mutations hx).1
          apply hav
          rw [popFront_eq_some hpop]
          exact List.mem_cons_of_mem m this
        have hinv' : ∀ x, x ∈ (if usage m = 0 then nu.erase m else nu) ↔
            x ∈ mutations ∧ (if x = m then usage x + 1 else usage x) = 0 := by
          intro x
          by_cases hu : usage m = 0
          · rw [if_pos hu]
            by_cases hxm : x = m
            · rw [hxm]
              simp only [if_pos rfl]
              constructor
              · intro hmem
                exact absurd rfl (hnd.mem_erase_iff.mp hmem).1
              · intro hc
                exact absurd hc.2 (Nat.succ_ne_zero _)
            · rw [hnd.mem_erase_iff, if_neg hxm]
              rw [hinv x]
              tauto
          · rw [if_neg hu]
            by_cases hxm : x = m
            · rw [hxm, if_pos rfl, hinv m]
              constructor
              · intro hc
                exact absurd hc.2 hu
              · intro hc
                exact absurd hc.2 (Nat.succ_ne_zero _)
            · rw [if_neg hxm]
              exact hinv x
        have hnd' : (if usage m = 0 then nu.erase m else nu).Nodup := by
          by_cases hu : usage m = 0
          · rw [if_pos hu]; exact hnd.erase m
          · rw [if_neg hu]; exact hnd
        have hlen' : (if usage m = 0 then nu.erase m else nu).length ≤ nu.length := by
          by_cases hu : usage m = 0
          · rw [if_pos hu]; exact (List.erase_sublist m nu).length_le
          · rw [if_neg hu]
        obtain ⟨h1, h2, h3⟩ := ih (toApply ++ [m])
          (fun x => if x = m then usage x + 1 else usage x)
          (if usage m = 0 then nu.erase m else nu)
          (remove_bad_mutations (toApply ++ [m]) rest false)
          havrest hinv' hnd'
        exact ⟨h1, h2, le_trans h3 hlen'⟩
    · rw [if_neg hlt]
      exact ⟨hinv, hnd, le_rfl⟩

theorem BetweenOperatorsHOMStrategy.applyLoop_notused_strict (order fuel : Nat)
    (mutations : List Mutation)
    (toApply : List Mutation) (usage : Mutation → Nat) (nu : List Mutation)
    (m : Mutation) (rest : List Mutation)
    (hav : ∀ x ∈ m :: rest, x ∈ mutations)
    (hinv : ∀ x, x ∈ nu ↔ x ∈ mutations ∧ usage x = 0)
    (hnd : nu.Nodup)
    (hu : usage m = 0)
    (hlt : toApply.length < order) (hf : fuel ≠ 0) :
    (BetweenOperatorsHOMStrategy.applyLoop order fuel toApply usage nu (m :: rest)).2.2.length
      < nu.length := by
  cases fuel with
  | zero => exact absurd rfl hf
  | succ fuel =>
    simp only [BetweenOperatorsHOMStrategy.applyLoop]
    rw [if_pos hlt]
    simp only [popFront]
    have hmnu : m ∈ nu := (hinv m).mpr ⟨hav m (List.mem_cons_self m rest), hu⟩
    have hinv' : ∀ x, x ∈ (if usage m = 0 then nu.erase m else nu) ↔
        x ∈ mutations ∧ (if x = m then usage x + 1 else usage x) = 0 := by
      intro x
      rw [if_pos hu]
      by_cases hxm : x = m
      · rw [hxm]
        simp only [if_pos rfl]
        constructor
        · intro hmem
          exact absurd rfl (hnd.mem_erase_iff.mp hmem).1
        · intro hc
          exact absurd hc.2 (Nat.succ_ne_zero _)
      · rw [hnd.mem_erase_iff, if_neg hxm]
        rw [hinv x]
        tauto
    have hnd' : (if usage m = 0 then nu.erase m else nu).Nodup := by
      rw [if_pos hu]; exact hnd.erase m
    have havrest : ∀ x ∈ remove_bad_mutations (toApply ++ [m]) rest false, x ∈ mutations := by
      intro x hx
      exact hav x (List.mem_cons_of_mem m (mem_remove_bad_mutations hx).1)
    have h := (BetweenOperatorsHOMStrategy.applyLoop_notused order fuel mutations
      (toApply ++ [m]) (fun x => if x = m then usage x + 1 else usage x)
      (if usage m = 0 then nu.erase m else nu)
      (remove_bad_mutations (toApply ++ [m]) rest false) havrest hinv' hnd').2.2
    have hlenerase : (nu.erase m).length < nu.length := by
      rw [List.length_erase_of_mem hmnu]
      have : 0 < nu.length := List.length_pos_of_mem hmnu
      omega
    rw [if_pos hu] at h
    rw [if_pos hu]
    exact lt_of_le_of_lt h hlenerase

theorem BetweenOperatorsHOMStrategy.bo_generateLoop_pairwise (order : Nat) (mutations : List Mutation) :
    ∀ (fuel : Nat) (usage : Mutation → Nat) (nu : List Mutation),
    ∀ g ∈ (BetweenOperatorsHOMStrategy.generateLoop order mutations fuel usage nu).1,
    g.Pairwise (fun a b => isBadMutation a b false = false) := by
  intro fuel
  induction fuel with
  | zero =>
    intro usage nu g hg
    simp [BetweenOperatorsHOMStrategy.generateLoop] at hg
  | succ fuel ih =>
    intro usage nu g hg
    simp only [BetweenOperatorsHOMStrategy.generateLoop] at hg
    by_cases hnu : nu = []
    · rw [if_pos hnu] at hg
      simp at hg
    · rw [if_neg hnu] at hg
      rcases List.mem_cons.mp hg with h | h
      · rw [h]
        exact BetweenOperatorsHOMStrategy.bo_applyLoop_pairwise order _ [] usage nu _
          (List.Pairwise.nil) (by intro a ha; simp at ha)
      · exact ih _ _ g h

theorem BetweenOperatorsHOMStrategy.generateLoop_spec (order : Nat) (mutations : List Mutation)
    (ho : 1 ≤ order) :
    ∀ (fuel : Nat) (usage : Mutation → Nat) (nu : List Mutation),
    (∀ x, x ∈ nu ↔ x ∈ mutations ∧ usage x = 0) →
    nu.Nodup →
    nu.length ≤ fuel →
    ((BetweenOperatorsHOMStrategy.generateLoop order mutations fuel usage nu).2.2 = [] ∧
     (∀ x, (BetweenOperatorsHOMStrategy.generateLoop order mutations fuel usage nu).2.1 x
        = usage x +
          ((BetweenOperatorsHOMStrategy.generateLoop order mutations fuel usage nu).1.flatten.count x)) ∧
     (∀ x ∈ (BetweenOperatorsHOMStrategy.generateLoop order mutations fuel usage nu).1.flatten,
        x ∈ mutations) ∧
     (∀ x, x ∈ (BetweenOperatorsHOMStrategy.generateLoop order mutations fuel usage nu).2.2 ↔
        x ∈ mutations ∧
          (BetweenOperatorsHOMStrategy.generateLoop order mutations fuel usage nu).2.1 x = 0)) := by
  intro fuel
  induction fuel with
  | zero =>
    intro usage nu hinv hnd hlen
    have hnu : nu = [] := List.length_eq_zero.mp (Nat.le_zero.mp hlen)
    subst hnu
    simp only [BetweenOperatorsHOMStrategy.generateLoop]
    refine ⟨by trivial, ?_, ?_, hinv⟩
    · intro x; simp
    · intro x hx; simp at hx
  | succ fuel ih =>
    intro usage nu hinv hnd hlen
    simp only [BetweenOperatorsHOMStrategy.generateLoop]
    by_cases hnu : nu = []
    · rw [if_pos hnu]
      subst hnu
      refine ⟨by trivial, ?_, ?_, hinv⟩
      · intro x; simp
      · intro x hx; simp at hx
    · rw [if_neg hnu]
      have hperm : (mutations.mergeSort fun a b => decide (usage a ≤ usage b)).Perm mutations :=
        List.mergeSort_perm mutations _
      have htrans : ∀ a b c : Mutation, (decide (usage a ≤ usage b)) = true →
          (decide (usage b ≤ usage c)) = true → (decide (usage a ≤ usage c)) = true := by
        intro a b c hab hbc
        simp only [decide_eq_true_eq] at hab hbc ⊢
        exact le_trans hab hbc
      have htotal : ∀ a b : Mutation,
          ((decide (usage a ≤ usage b)) || (decide (usage b ≤ usage a))) = true := by
        intro a b
        simp only [Bool.or_eq_true, decide_eq_true_eq]
        exact le_total _ _
      have hsorted := List.sorted_mergeSort htrans htotal mutations
      obtain ⟨x0, hx0⟩ := List.exists_mem_of_ne_nil nu hnu
      have hx0m := (hinv x0).mp hx0
      have hx0avail : x0 ∈ (mutations.mergeSort fun a b => decide (usage a ≤ usage b)) :=
        hperm.mem_iff.mpr hx0m.1
      obtain ⟨m, rest, haveq⟩ : ∃ m rest,
          (mutations.mergeSort fun a b => decide (usage a ≤ usage b)) = m :: rest := by
        cases hc : (mutations.mergeSort fun a b => decide (usage a ≤ usage b)) with
        | nil => rw [hc] at hx0avail; simp at hx0avail
        | cons a l => exact ⟨a, l, rfl⟩
      rw [haveq] at hperm hsorted hx0avail
      rw [haveq]
      have havmem : ∀ x ∈ m :: rest, x ∈ mutations := fun x hx => hperm.mem_iff.mp hx
      have hum : usage m = 0 := by
        rcases List.mem_cons.mp hx0avail with h | h
        · rw [h] at hx0m
          exact hx0m.2
        · have hle := List.rel_of_pairwise_cons hsorted h
          simp only [decide_eq_true_eq] at hle
          have := hx0m.2
          omega
      have hstrict := BetweenOperatorsHOMStrategy.applyLoop_notused_strict order
        (m :: rest).length mutations [] usage nu m rest havmem hinv hnd hum
        (by simpa using ho) (by simp)
      have hnotused := BetweenOperatorsHOMStrategy.applyLoop_notused order
        (m :: rest).length mutations [] usage nu (m :: rest) havmem hinv hnd
      obtain ⟨t, ht1, ht2, ht3⟩ := BetweenOperatorsHOMStrategy.applyLoop_fst_count order
        (m :: rest).length [] usage nu (m :: rest)
      simp only [List.nil_append] at ht1
      have hlen2 : (BetweenOperatorsHOMStrategy.applyLoop order (m :: rest).length
          [] usage nu (m :: rest)).2.2.length ≤ fuel := by
        have := hlen
        omega
      obtain ⟨q1, q2, q3, q4⟩ := ih
        (BetweenOperatorsHOMStrategy.applyLoop order (m :: rest).length [] usage nu (m :: rest)).2.1
        (BetweenOperatorsHOMStrategy.applyLoop order (m :: rest).length [] usage nu (m :: rest)).2.2
        hnotused.1 hnotused.2.1 hlen2
      refine ⟨q1, ?_, ?_, q4⟩
      · intro x
        rw [q2 x, ht3 x, List.flatten_cons, List.count_append, ht1]
        omega
      · intro x hx
        rw [List.flatten_cons, List.mem_append] at hx
        rcases hx with h | h
        · rw [ht1] at h
          exact havmem x (ht2 x h)
        · exact q3 x h

theorem ListHeap.get_set_ne (h : ListHeap) {r r' : Nat} (v : List Mutation) (hne : r ≠ r') :
    (h.set r' v).get r = h.get r := by
  unfold ListHeap.get ListHeap.set
  rw [List.getD_eq_getElem?_getD, List.getD_eq_getElem?_getD]
  rw [List.getElem?_set_ne (fun e => hne e.symm)]

theorem ListHeap.length_set (h : ListHeap) (r : Nat) (v : List Mutation) :
    (h.set r v).cells.length = h.cells.length :=
  List.length_set h.cells r v

theorem ListHeap.get_alloc (h : ListHeap) (v : List Mutation) {r : Nat}
    (hr : r < h.cells.length) : (h.alloc v).1.get r = h.get r := by
  unfold ListHeap.get ListHeap.alloc
  exact List.getD_append h.cells [v] [] r hr

theorem ListHeap.alloc_snd (h : ListHeap) (v : List Mutation) :
    (h.alloc v).2 = h.cells.length := rfl

theorem ListHeap.length_alloc (h : ListHeap) (v : List Mutation) :
    (h.alloc v).1.cells.length = h.cells.length + 1 := by
  unfold ListHeap.alloc
  simp

theorem FirstToLastHOMStrategy.ftl_applyLoopH_frame (order : Nat) :
    ∀ (fuel : Nat) (toApply : List Mutation) (h : ListHeap)
    (mutationsRef availRef r : Nat) (front : Bool),
    r ≠ mutationsRef → r ≠ availRef →
    ((FirstToLastHOMStrategy.applyLoopH order fuel toApply h mutationsRef availRef front).2.get r
        = h.get r) ∧
    ((FirstToLastHOMStrategy.applyLoopH order fuel toApply h mutationsRef availRef front).2.cells.length
        = h.cells.length) := by
  intro fuel
  induction fuel with
  | zero =>
    intro toApply h mref aref r front _ _
    exact ⟨rfl, rfl⟩
  | succ fuel ih =>
    intro toApply h mref aref r front h1 h2
    simp only [FirstToLastHOMStrategy.applyLoopH]
    by_cases hlt : toApply.length < order
    · rw [if_pos hlt]
      cases hpop : (if front then popFront (h.get aref) else popBack (h.get aref)) with
      | none => exact ⟨rfl, rfl⟩
      | some p =>
        obtain ⟨m, rest⟩ := p
        obtain ⟨ha, hb⟩ := ih (toApply ++ [m])
          ((((h.set aref rest).set mref (((h.set aref rest).get mref).erase m))).set aref
            (remove_bad_mutations (toApply ++ [m])
              (((h.set aref rest).set mref (((h.set aref rest).get mref).erase m)).get aref) true))
          mref aref r (!front) h1 h2
        constructor
        · rw [ha, ListHeap.get_set_ne _ _ h2, ListHeap.get_set_ne _ _ h1,
            ListHeap.get_set_ne _ _ h2]
        · rw [hb, ListHeap.length_set, ListHeap.length_set, ListHeap.length_set]
    · rw [if_neg hlt]
      exact ⟨rfl, rfl⟩

theorem FirstToLastHOMStrategy.ftl_generateLoopH_frame (order : Nat) :
    ∀ (fuel : Nat) (h : ListHeap) (mutationsRef r : Nat),
    r ≠ mutationsRef → r < h.cells.length → mutationsRef < h.cells.length →
    (FirstToLastHOMStrategy.generateLoopH order fuel h mutationsRef).2.get r = h.get r := by
  intro fuel
  induction fuel with
  | zero =>
    intro h mref r _ _ _
    rfl
  | succ fuel ih =>
    intro h mref r h1 h2 h3
    simp only [FirstToLastHOMStrategy.generateLoopH]
    by_cases hempty : h.get mref = []
    · rw [if_pos hempty]
    · rw [if_neg hempty]
      have haref : (h.alloc (h.get mref)).2 = h.cells.length := rfl
      have hraref : r ≠ (h.alloc (h.get mref)).2 := by
        rw [haref]; omega
      obtain ⟨pa, pb⟩ := FirstToLastHOMStrategy.ftl_applyLoopH_frame order
        ((h.alloc (h.get mref)).1.get (h.alloc (h.get mref)).2).length []
        (h.alloc (h.get mref)).1 mref (h.alloc (h.get mref)).2 r true h1 hraref
      have hlen1 : (h.alloc (h.get mref)).1.cells.length = h.cells.length + 1 :=
        ListHeap.length_alloc h _
      have hq := ih (FirstToLastHOMStrategy.applyLoopH order
          ((h.alloc (h.get mref)).1.get (h.alloc (h.get mref)).2).length []
          (h.alloc (h.get mref)).1 mref (h.alloc (h.get mref)).2 true).2 mref r h1
        (by rw [pb, hlen1]; omega) (by rw [pb, hlen1]; omega)
      rw [hq, pa, ListHeap.get_alloc h _ h2]

theorem FirstToLastHOMStrategy.ftl_generateH_frame (order : Nat) (h : ListHeap) (r : Nat)
    (hr : r < h.cells.length) :
    (FirstToLastHOMStrategy.generateH order h r).2.get r = h.get r := by
  unfold FirstToLastHOMStrategy.generateH
  have hrne : r ≠ (h.alloc (h.get r)).2 := by
    rw [ListHeap.alloc_snd]; omega
  have hlen1 : (h.alloc (h.get r)).1.cells.length = h.cells.length + 1 :=
    ListHeap.length_alloc h _
  have hmlt : (h.alloc (h.get r)).2 < (h.alloc (h.get r)).1.cells.length := by
    rw [ListHeap.alloc_snd, hlen1]; omega
  have hq := FirstToLastHOMStrategy.ftl_generateLoopH_frame order
    ((h.alloc (h.get r)).1.get (h.alloc (h.get r)).2).length
    (h.alloc (h.get r)).1 (h.alloc (h.get r)).2 r hrne (by rw [hlen1]; omega) hmlt
  rw [hq, ListHeap.get_alloc h _ hr]

theorem EachChoiceHOMStrategy.ec_applyLoopH_frame (order : Nat) :
    ∀ (fuel : Nat) (toApply : List Mutation) (h : ListHeap)
    (mutationsRef availRef r : Nat),
    r ≠ mutationsRef → r ≠ availRef →
    ((EachChoiceHOMStrategy.applyLoopH order fuel toApply h mutationsRef availRef).2.get r
        = h.get r) ∧
    ((EachChoiceHOMStrategy.applyLoopH order fuel toApply h mutationsRef availRef).2.cells.length
        = h.cells.length) := by
  intro fuel
  induction fuel with
  | zero =>
    intro toApply h mref aref r _ _
    exact ⟨rfl, rfl⟩
  | succ fuel ih =>
    intro toApply h mref aref r h1 h2
    simp only [EachChoiceHOMStrategy.applyLoopH]
    by_cases hlt : toApply.length < order
    · rw [if_pos hlt]
      cases hpop : popFront (h.get aref) with
      | none => exact ⟨rfl, rfl⟩
      | some p =>
        obtain ⟨m, rest⟩ := p
        obtain ⟨ha, hb⟩ := ih (toApply ++ [m])
          ((((h.set aref rest).set mref (((h.set aref rest).get mref).erase m))).set aref
            (remove_bad_mutations (toApply ++ [m])
              (((h.set aref rest).set mref (((h.set aref rest).get mref).erase m)).get aref) true))
          mref aref r h1 h2
        constructor
        · rw [ha, ListHeap.get_set_ne _ _ h2, ListHeap.get_set_ne _ _ h1,
            ListHeap.get_set_ne _ _ h2]
        · rw [hb, ListHeap.length_set, ListHeap.length_set, ListHeap.length_set]
    · rw [if_neg hlt]
      exact ⟨rfl, rfl⟩

theorem EachChoiceHOMStrategy.ec_generateLoopH_frame (order : Nat) :
    ∀ (fuel : Nat) (h : ListHeap) (mutationsRef r : Nat),
    r ≠ mutationsRef → r < h.cells.length → mutationsRef < h.cells.length →
    (EachChoiceHOMStrategy.generateLoopH order fuel h mutationsRef).2.get r = h.get r := by
  intro fuel
  induction fuel with
  | zero =>
    intro h mref r _ _ _
    rfl
  | succ fuel ih =>
    intro h mref r h1 h2 h3
    simp only [EachChoiceHOMStrategy.generateLoopH]
    by_cases hempty : h.get mref = []
    · rw [if_pos hempty]
    · rw [if_neg hempty]
      have hraref : r ≠ (h.alloc (h.get mref)).2 := by
        rw [ListHeap.alloc_snd]; omega
      obtain ⟨pa, pb⟩ := EachChoiceHOMStrategy.ec_applyLoopH_frame order
        ((h.alloc (h.get mref)).1.get (h.alloc (h.get mref)).2).length []
        (h.alloc (h.get mref)).1 mref (h.alloc (h.get mref)).2 r h1 hraref
      have hlen1 : (h.alloc (h.get mref)).1.cells.length = h.cells.length + 1 :=
        ListHeap.length_alloc h _
      have hq := ih (EachChoiceHOMStrategy.applyLoopH order
          ((h.alloc (h.get mref)).1.get (h.alloc (h.get mref)).2).length []
          (h.alloc (h.get mref)).1 mref (h.alloc (h.get mref)).2).2 mref r h1
        (by rw [pb, hlen1]; omega) (by rw [pb, hlen1]; omega)
      rw [hq, pa, ListHeap.get_alloc h _ h2]

theorem EachChoiceHOMStrategy.ec_generateH_frame (order : Nat) (h : ListHeap) (r : Nat)
    (hr : r < h.cells.length) :
    (EachChoiceHOMStrategy.generateH order h r).2.get r = h.get r := by
  unfold EachChoiceHOMStrategy.generateH
  have hrne : r ≠ (h.alloc (h.get r)).2 := by
    rw [ListHeap.alloc_snd]; omega
  have hlen1 : (h.alloc (h.get r)).1.cells.length = h.cells.length + 1 :=
    ListHeap.length_alloc h _
  have hmlt : (h.alloc (h.get r)).2 < (h.alloc (h.get r)).1.cells.length := by
    rw [ListHeap.alloc_snd, hlen1]; omega
  have hq := EachChoiceHOMStrategy.ec_generateLoopH_frame order
    ((h.alloc (h.get r)).1.get (h.alloc (h.get r)).2).length
    (h.alloc (h.get r)).1 (h.alloc (h.get r)).2 r hrne (by rw [hlen1]; omega) hmlt
  rw [hq, ListHeap.get_alloc h _ hr]

theorem RandomHOMStrategy.rand_applyLoopH_frame (order : Nat) :
    ∀ (fuel : Nat) (toApply : List Mutation) (h : ListHeap)
    (mutationsRef availRef r : Nat),
    r ≠ mutationsRef → r ≠ availRef →
    ((RandomHOMStrategy.applyLoopH order fuel toApply h mutationsRef availRef).2.get r
        = h.get r) ∧
    ((RandomHOMStrategy.applyLoopH order fuel toApply h mutationsRef availRef).2.cells.length
        = h.cells.length) := by
  intro fuel
  induction fuel with
  | zero =>
    intro toApply h mref aref r _ _
    exact ⟨rfl, rfl⟩
  | succ fuel ih =>
    intro toApply h mref aref r h1 h2
    simp only [RandomHOMStrategy.applyLoopH]
    by_cases hlt : toApply.length < order
    · rw [if_pos hlt]
      cases hpop : popFront (h.get aref) with
      | none => exact ⟨rfl, rfl⟩
      | some p =>
        obtain ⟨m, rest⟩ := p
        obtain ⟨ha, hb⟩ := ih (toApply ++ [m])
          ((((h.set aref rest).set mref (((h.set aref rest).get mref).erase m))).set aref
            (remove_bad_mutations (toApply ++ [m])
              (((h.set aref rest).set mref (((h.set aref rest).get mref).erase m)).get aref) true))
          mref aref r h1 h2
        constructor
        · rw [ha, ListHeap.get_set_ne _ _ h2, ListHeap.get_set_ne _ _ h1,
            ListHeap.get_set_ne _ _ h2]
        · rw [hb, ListHeap.length_set, ListHeap.length_set, ListHeap.length_set]
    · rw [if_neg hlt]
      exact ⟨rfl, rfl⟩

theorem RandomHOMStrategy.rand_generateLoopH_frame (order : Nat) :
    ∀ (fuel : Nat) (h : ListHeap) (mutationsRef r : Nat),
    r ≠ mutationsRef → r < h.cells.length → mutationsRef < h.cells.length →
    (RandomHOMStrategy.generateLoopH order fuel h mutationsRef).2.get r = h.get r := by
  intro fuel
  induction fuel with
  | zero =>
    intro h mref r _ _ _
    rfl
  | succ fuel ih =>
    intro h mref r h1 h2 h3
    simp only [RandomHOMStrategy.generateLoopH]
    by_cases hempty : h.get mref = []
    · rw [if_pos hempty]
    · rw [if_neg hempty]
      have hraref : r ≠ (h.alloc (h.get mref)).2 := by
        rw [ListHeap.alloc_snd]; omega
      obtain ⟨pa, pb⟩ := RandomHOMStrategy.rand_applyLoopH_frame order
        ((h.alloc (h.get mref)).1.get (h.alloc (h.get mref)).2).length []
        (h.alloc (h.get mref)).1 mref (h.alloc (h.get mref)).2 r h1 hraref
      have hlen1 : (h.alloc (h.get mref)).1.cells.length = h.cells.length + 1 :=
        ListHeap.length_alloc h _
      have hq := ih (RandomHOMStrategy.applyLoopH order
          ((h.alloc (h.get mref)).1.get (h.alloc (h.get mref)).2).length []
          (h.alloc (h.get mref)).1 mref (h.alloc (h.get mref)).2).2 mref r h1
        (by rw [pb, hlen1]; omega) (by rw [pb, hlen1]; omega)
      rw [hq, pa, ListHeap.get_alloc h _ h2]

theorem RandomHOMStrategy.rand_generateH_frame (order : Nat)
    (shuffler : List Mutation → List Mutation) (h : ListHeap) (r : Nat)
    (hr : r < h.cells.length) :
    (RandomHOMStrategy.generateH order shuffler h r).2.get r = h.get r := by
  unfold RandomHOMStrategy.generateH
  have hrne : r ≠ (h.alloc (h.get r)).2 := by
    rw [ListHeap.alloc_snd]; omega
  have hlen1 : (h.alloc (h.get r)).1.cells.length = h.cells.length + 1 :=
    ListHeap.length_alloc h _
  have hlen2 : ((h.alloc (h.get r)).1.set (h.alloc (h.get r)).2
      (shuffler ((h.alloc (h.get r)).1.get (h.alloc (h.get r)).2))).cells.length
      = h.cells.length + 1 := by
    rw [ListHeap.length_set, hlen1]
  have hq := RandomHOMStrategy.rand_generateLoopH_frame order
    ((((h.alloc (h.get r)).1.set (h.alloc (h.get r)).2
        (shuffler ((h.alloc (h.get r)).1.get (h.alloc (h.get r)).2)))).get
      (h.alloc (h.get r)).2).length
    ((h.alloc (h.get r)).1.set (h.alloc (h.get r)).2
      (shuffler ((h.alloc (h.get r)).1.get (h.alloc (h.get r)).2)))
    (h.alloc (h.get r)).2 r hrne (by rw [hlen2]; omega)
    (by rw [hlen2, ListHeap.alloc_snd]; omega)
  rw [hq, ListHeap.get_set_ne _ _ hrne, ListHeap.get_alloc h _ hr]

theorem BetweenOperatorsHOMStrategy.bo_applyLoopH_frame (order : Nat) :
    ∀ (fuel : Nat) (toApply : List Mutation) (usage : Mutation → Nat) (h : ListHeap)
    (notUsedRef availRef r : Nat),
    r ≠ notUsedRef → r ≠ availRef →
    ((BetweenOperatorsHOMStrategy.applyLoopH order fuel toApply usage h notUsedRef availRef).2.get r
        = h.get r) ∧
    ((BetweenOperatorsHOMStrategy.applyLoopH order fuel toApply usage h
        notUsedRef availRef).2.cells.length = h.cells.length) := by
  intro fuel
  induction fuel with
  | zero =>
    intro toApply usage h nref aref r _ _
    exact ⟨rfl, rfl⟩
  | succ fuel ih =>
    intro toApply usage h nref aref r h1 h2
    simp only [BetweenOperatorsHOMStrategy.applyLoopH]
    by_cases hlt : toApply.length < order
    · rw [if_pos hlt]
      cases hpop : popFront (h.get aref) with
      | none => exact ⟨rfl, rfl⟩
      | some p =>
        obtain ⟨m, rest⟩ := p
        have hcond : ∀ (h' : ListHeap),
            ((if usage m = 0 then
                h'.set nref ((h'.get nref).erase m) else h').get r = h'.get r) ∧
            ((if usage m = 0 then
                h'.set nref ((h'.get nref).erase m) else h').cells.length
              = h'.cells.length) := by
          intro h'
          by_cases hu : usage m = 0
          · rw [if_pos hu, ListHeap.get_set_ne _ _ h1, ListHeap.length_set]
            exact ⟨rfl, rfl⟩
          · rw [if_neg hu]
            exact ⟨rfl, rfl⟩
        obtain ⟨ha, hb⟩ := ih (toApply ++ [m])
          (fun x => if x = m then usage x + 1 else usage x)
          ((if usage m = 0 then
              (h.set aref rest).set nref (((h.set aref rest).get nref).erase m)
            else (h.set aref rest)).set aref
            (remove_bad_mutations (toApply ++ [m])
              ((if usage m = 0 then
                  (h.set aref rest).set nref (((h.set aref rest).get nref).erase m)
                else (h.set aref rest)).get aref) false))
          nref aref r h1 h2
        constructor
        · rw [ha, ListHeap.get_set_ne _ _ h2, (hcond (h.set aref rest)).1,
            ListHeap.get_set_ne _ _ h2]
        · rw [hb, ListHeap.length_set, (hcond (h.set aref rest)).2, ListHeap.length_set]
    · rw [if_neg hlt]
      exact ⟨rfl, rfl⟩

theorem BetweenOperatorsHOMStrategy.bo_generateLoopH_frame (order mutationsRef : Nat) :
    ∀ (fuel : Nat) (usage : Mutation → Nat) (h : ListHeap) (notUsedRef r : Nat),
    r ≠ notUsedRef → r < h.cells.length → notUsedRef < h.cells.length →
    (BetweenOperatorsHOMStrategy.generateLoopH order mutationsRef fuel usage h notUsedRef).2.get r
      = h.get r := by
  intro fuel
  induction fuel with
  | zero =>
    intro usage h nref r _ _ _
    rfl
  | succ fuel ih =>
    intro usage h nref r h1 h2 h3
    simp only [BetweenOperatorsHOMStrategy.generateLoopH]
    by_cases hempty : h.get nref = []
    · rw [if_pos hempty]
    · rw [if_neg hempty]
      have hraref : r ≠ (h.alloc (h.get mutationsRef)).2 := by
        rw [ListHeap.alloc_snd]; omega
      have hlen1 : (h.alloc (h.get mutationsRef)).1.cells.length = h.cells.length + 1 :=
        ListHeap.length_alloc h _
      have hlen2 : (((h.alloc (h.get mutationsRef)).1.set (h.alloc (h.get mutationsRef)).2
          (((h.alloc (h.get mutationsRef)).1.get
            (h.alloc (h.get mutationsRef)).2).mergeSort
              fun x y => decide (usage x ≤ usage y)))).cells.length
          = h.cells.length + 1 := by
        rw [ListHeap.length_set, hlen1]
      obtain ⟨pa, pb⟩ := BetweenOperatorsHOMStrategy.bo_applyLoopH_frame order
        ((((h.alloc (h.get mutationsRef)).1.set (h.alloc (h.get mutationsRef)).2
          (((h.alloc (h.get mutationsRef)).1.get
            (h.alloc (h.get mutationsRef)).2).mergeSort
              fun x y => decide (usage x ≤ usage y)))).get (h.alloc (h.get mutationsRef)).2).length
        [] usage
        (((h.alloc (h.get mutationsRef)).1.set (h.alloc (h.get mutationsRef)).2
          (((h.alloc (h.get mutationsRef)).1.get
            (h.alloc (h.get mutationsRef)).2).mergeSort
              fun x y => decide (usage x ≤ usage y))))
        nref (h.alloc (h.get mutationsRef)).2 r h1 hraref
      have hq := ih (BetweenOperatorsHOMStrategy.applyLoopH order
          ((((h.alloc (h.get mutationsRef)).1.set (h.alloc (h.get mutationsRef)).2
            (((h.alloc (h.get mutationsRef)).1.get
              (h.alloc (h.get mutationsRef)).2).mergeSort
                fun x y => decide (usage x ≤ usage y)))).get
            (h.alloc (h.get mutationsRef)).2).length
          [] usage
          (((h.alloc (h.get mutationsRef)).1.set (h.alloc (h.get mutationsRef)).2
            (((h.alloc (h.get mutationsRef)).1.get
              (h.alloc (h.get mutationsRef)).2).mergeSort
                fun x y => decide (usage x ≤ usage y))))
          nref (h.alloc (h.get mutationsRef)).2).1.2
        (BetweenOperatorsHOMStrategy.applyLoopH order
          ((((h.alloc (h.get mutationsRef)).1.set (h.alloc (h.get mutationsRef)).2
            (((h.alloc (h.get mutationsRef)).1.get
              (h.alloc (h.get mutationsRef)).2).mergeSort
                fun x y => decide (usage x ≤ usage y)))).get
            (h.alloc (h.get mutationsRef)).2).length
          [] usage
          (((h.alloc (h.get mutationsRef)).1.set (h.alloc (h.get mutationsRef)).2
            (((h.alloc (h.get mutationsRef)).1.get
              (h.alloc (h.get mutationsRef)).2).mergeSort
                fun x y => decide (usage x ≤ usage y))))
          nref (h.alloc (h.get mutationsRef)).2).2
        nref r h1 (by rw [pb, hlen2]; omega) (by rw [pb, hlen2]; omega)
      rw [hq, pa, ListHeap.get_set_ne _ _ hraref, ListHeap.get_alloc h _ h2]

theorem BetweenOperatorsHOMStrategy.bo_generateH_frame (order : Nat) (h : ListHeap) (r : Nat)
    (hr : r < h.cells.length) :
    (BetweenOperatorsHOMStrategy.generateH order h r).2.get r = h.get r := by
  unfold BetweenOperatorsHOMStrategy.generateH
  have hrne : r ≠ (h.alloc (h.get r)).2 := by
    rw [ListHeap.alloc_snd]; omega
  have hlen1 : (h.alloc (h.get r)).1.cells.length = h.cells.length + 1 :=
    ListHeap.length_alloc h _
  have hq := BetweenOperatorsHOMStrategy.bo_generateLoopH_frame order r
    ((h.alloc (h.get r)).1.get (h.alloc (h.get r)).2).length (fun _ => 0)
    (h.alloc (h.get r)).1 (h.alloc (h.get r)).2 r hrne (by rw [hlen1]; omega)
    (by rw [ListHeap.alloc_snd, hlen1]; omega)
  rw [hq, ListHeap.get_alloc h _ hr]

theorem MutationScore.all_mutants_inc_killed (s : MutationScore) :
    s.inc_killed.all_mutants = s.all_mutants + 1 := by
  simp only [MutationScore.all_mutants, MutationScore.inc_killed]
  omega

theorem MutationScore.all_mutants_inc_timeout (s : MutationScore) :
    s.inc_timeout.all_mutants = s.all_mutants + 1 := by
  simp only [MutationScore.all_mutants, MutationScore.inc_timeout]
  omega

theorem MutationScore.all_mutants_inc_incompetent (s : MutationScore) :
    s.inc_incompetent.all_mutants = s.all_mutants + 1 := by
  simp only [MutationScore.all_mutants, MutationScore.inc_incompetent]
  omega

theorem MutationScore.all_mutants_inc_survived (s : MutationScore) :
    s.inc_survived.all_mutants = s.all_mutants + 1 := by
  simp only [MutationScore.all_mutants, MutationScore.inc_survived]
  omega

theorem MutationController.update_views_score (st : ControllerState)
    (result : Option MutantTestResult) (d : ℚ) :
    (MutationController.update_score_and_notify_views st result d).score = st.score.inc_killed ∨
    (MutationController.update_score_and_notify_views st result d).score = st.score.inc_timeout ∨
    (MutationController.update_score_and_notify_views st result d).score = st.score.inc_incompetent ∨
    (MutationController.update_score_and_notify_views st result d).score = st.score.inc_survived := by
  cases result with
  | none =>
    right; left
    simp [MutationController.update_score_and_notify_views,
      MutationController.update_timeout_mutant, ControllerState.notify]
  | some r =>
    by_cases h1 : r.is_incompetent
    · right; right; left
      simp [MutationController.update_score_and_notify_views,
        MutationController.update_incompetent_mutant, ControllerState.notify, h1]
    · by_cases h2 : r.is_survived
      · right; right; right
        simp [MutationController.update_score_and_notify_views,
          MutationController.update_survived_mutant, ControllerState.notify, h1, h2]
      · left
        simp [MutationController.update_score_and_notify_views,
          MutationController.update_killed_mutant, ControllerState.notify, h1, h2]

theorem MutationController.update_views_all_mutants (st : ControllerState)
    (result : Option MutantTestResult) (d : ℚ) :
    (MutationController.update_score_and_notify_views st result d).score.all_mutants
      = st.score.all_mutants + 1 := by
  rcases MutationController.update_views_score st result d with h | h | h | h <;> rw [h]
  · exact MutationScore.all_mutants_inc_killed _
  · exact MutationScore.all_mutants_inc_timeout _
  · exact MutationScore.all_mutants_inc_incompetent _
  · exact MutationScore.all_mutants_inc_survived _

theorem MutationController.update_views_log (st : ControllerState)
    (result : Option MutantTestResult) (d : ℚ) :
    ∃ n, (MutationController.update_score_and_notify_views st result d).log
      = st.log ++ [n] := by
  cases result with
  | none =>
    refine ⟨Notification.timeoutNotice d, ?_⟩
    simp [MutationController.update_score_and_notify_views,
      MutationController.update_timeout_mutant, ControllerState.notify]
  | some r =>
    by_cases h1 : r.is_incompetent
    · refine ⟨Notification.incompetentNotice d r.exception r.tests_run, ?_⟩
      simp [MutationController.update_score_and_notify_views,
        MutationController.update_incompetent_mutant, ControllerState.notify, h1]
    · by_cases h2 : r.is_survived
      · refine ⟨Notification.survivedNotice d r.tests_run, ?_⟩
        simp [MutationController.update_score_and_notify_views,
          MutationController.update_survived_mutant, ControllerState.notify, h1, h2]
      · refine ⟨Notification.killedNotice d r.killer r.exception_traceback r.tests_run, ?_⟩
        simp [MutationController.update_score_and_notify_views,
          MutationController.update_killed_mutant, ControllerState.notify, h1, h2]

theorem MutationController.update_views_foldl (rs : List (Option MutantTestResult × ℚ)) :
    ∀ st : ControllerState,
    ((rs.foldl (fun st p => MutationController.update_score_and_notify_views st p.1 p.2)
        st).score.all_mutants) = st.score.all_mutants + rs.length := by
  induction rs with
  | nil => intro st; simp
  | cons p rs ih =>
    intro st
    rw [List.foldl_cons, ih, MutationController.update_views_all_mutants]
    simp only [List.length_cons]
    omega

theorem MutationController.loadTestsLoop_ok (rs : List TestModuleRun) :
    ∀ (acc : List TestModuleRun) (d : ℚ) (n : Nat),
    (∀ r ∈ rs, r.wasSuccessful = true) →
    MutationController.loadTestsLoop rs acc d n
      = .ok (acc ++ rs, d + (rs.map TestModuleRun.duration).sum,
          n + (rs.map TestModuleRun.testsRun).sum) := by
  induction rs with
  | nil =>
    intro acc d n _
    simp [MutationController.loadTestsLoop]
  | cons r rest ih =>
    intro acc d n hall
    have hr : r.wasSuccessful = true := hall r (List.mem_cons_self r rest)
    simp only [MutationController.loadTestsLoop]
    rw [if_pos hr, ih (acc ++ [r]) _ _ (fun x hx => hall x (List.mem_cons_of_mem r hx))]
    simp [add_assoc]

theorem MutationController.loadTestsLoop_fail (rs : List TestModuleRun) :
    ∀ (acc : List TestModuleRun) (d : ℚ) (n : Nat),
    (∃ r ∈ rs, r.wasSuccessful = false) →
    MutationController.loadTestsLoop rs acc d n = .error .testsFailAtOriginal := by
  induction rs with
  | nil =>
    intro _ _ _ h
    simp at h
  | cons r rest ih =>
    intro acc d n h
    simp only [MutationController.loadTestsLoop]
    by_cases hr : r.wasSuccessful = true
    · rw [if_pos hr]
      apply ih
      obtain ⟨x, hx, hxf⟩ := h
      rcases List.mem_cons.mp hx with he | he
      · rw [he, hr] at hxf
        cases hxf
      · exact ⟨x, he, hxf⟩
    · rw [if_neg hr]

theorem MutationController.targetsLoop_ok (mn : Option Nat) (ts : List TargetModuleInput) :
    ∀ st : ControllerState, (∀ t ∈ ts, t.genError = none) →
    MutationController.targetsLoop mn st ts none
      = (ts.foldl (fun s t => t.genItems.foldl (MutationController.processMutant mn) s) st,
         none) := by
  induction ts with
  | nil =>
    intro st _
    simp [MutationController.targetsLoop]
  | cons t rest ih =>
    intro st hall
    have ht : t.genError = none := hall t (List.mem_cons_self t rest)
    simp only [MutationController.targetsLoop, MutationController.mutate_module, ht,
      List.foldl_cons]
    exact ih _ (fun x hx => hall x (List.mem_cons_of_mem t hx))

theorem MutationController.targetsLoop_loaderr (mn : Option Nat) (ts : List TargetModuleInput)
    (name : String) :
    ∀ st : ControllerState, (∀ t ∈ ts, t.genError = none) →
    MutationController.targetsLoop mn st ts (some name)
      = (ts.foldl (fun s t => t.genItems.foldl (MutationController.processMutant mn) s) st,
         some (.modulesLoader name)) := by
  induction ts with
  | nil =>
    intro st _
    simp [MutationController.targetsLoop]
  | cons t rest ih =>
    intro st hall
    have ht : t.genError = none := hall t (List.mem_cons_self t rest)
    simp only [MutationController.targetsLoop, MutationController.mutate_module, ht,
      List.foldl_cons]
    exact ih _ (fun x hx => hall x (List.mem_cons_of_mem t hx))

theorem MutationController.targetsLoop_genError (mn : Option Nat) (t : TargetModuleInput)
    (e : String) (rest : List TargetModuleInput) (errAfter : Option String)
    (st : ControllerState) (he : t.genError = some e) :
    MutationController.targetsLoop mn st (t :: rest) errAfter
      = (t.genItems.foldl (MutationController.processMutant mn) st,
         some (.assertionError e)) := by
  simp only [MutationController.targetsLoop, MutationController.mutate_module, he]

/-- C1: for every `MutationScore` state, `count()` returns
`(killed_mutants + timeout_mutants) / (all_mutants - incompetent_mutants) * 100`
when `all_mutants - incompetent_mutants` is non-zero, and returns 0 when
`all_mutants` equals `incompetent_mutants`, including the freshly initialised
state where no mutant has been classified. -/
theorem MutationScore.count_spec (s : MutationScore) :
    (s.all_mutants - s.incompetent_mutants ≠ 0 →
      s.count = (((s.killed_mutants : ℚ) + (s.timeout_mutants : ℚ)) /
        ((s.all_mutants : ℚ) - (s.incompetent_mutants : ℚ))) * 100) ∧
    (s.all_mutants = s.incompetent_mutants → s.count = 0) ∧
    MutationScore.init.count = 0 := by
  have hle : s.incompetent_mutants ≤ s.all_mutants := by
    simp only [MutationScore.all_mutants]
    omega
  refine ⟨?_, ?_, ?_⟩
  · intro h
    simp only [MutationScore.count]
    rw [if_pos h, Nat.cast_sub hle]
  · intro h
    simp only [MutationScore.count]
    rw [if_neg (by omega)]
  · rfl

theorem MutationScore.count_spec_witness :
    ({ killed_mutants := 3, timeout_mutants := 1, incompetent_mutants := 1,
       survived_mutants := 1, covered_nodes := 0, all_nodes := 0 } : MutationScore).count
      = 80 := by
  have h := (MutationScore.count_spec ⟨3, 1, 1, 1, 0, 0⟩).1 (by decide)
  rw [h]
  norm_num [MutationScore.all_mutants]

/-- C2: every call of `update_score_and_notify_views` increments exactly one of
the four counters (the state moves by exactly one `inc_*`), emits exactly one
observer notification, and `all_mutants` always equals the number of
classification calls made from the initial score. -/
theorem MutationController.classification_spec :
    (∀ (st : ControllerState) (result : Option MutantTestResult) (d : ℚ),
      (MutationController.update_score_and_notify_views st result d).score.all_mutants
        = st.score.all_mutants + 1 ∧
      (∃ n, (MutationController.update_score_and_notify_views st result d).log
        = st.log ++ [n]) ∧
      ((MutationController.update_score_and_notify_views st result d).score
          = st.score.inc_killed ∨
       (MutationController.update_score_and_notify_views st result d).score
          = st.score.inc_timeout ∨
       (MutationController.update_score_and_notify_views st result d).score
          = st.score.inc_incompetent ∨
       (MutationController.update_score_and_notify_views st result d).score
          = st.score.inc_survived)) ∧
    (∀ rs : List (Option MutantTestResult × ℚ),
      ((rs.foldl (fun st p => MutationController.update_score_and_notify_views st p.1 p.2)
        ⟨MutationScore.init, []⟩).score.all_mutants) = rs.length) := by
  constructor
  · intro st result d
    exact ⟨MutationController.update_views_all_mutants st result d,
      MutationController.update_views_log st result d,
      MutationController.update_views_score st result d⟩
  · intro rs
    rw [MutationController.update_views_foldl rs]
    simp [MutationScore.init, MutationScore.all_mutants]

/-- C6: when `mutation_number` is configured (set to a non-zero value `k`, as
Python truthiness requires) and the current mutant's ordinal
`all_mutants + 1` differs from `k`, the mutant is classified incompetent
without materialization, test execution or any notification (the resulting
state does not depend on the mutant's oracle data and its log is unchanged),
the incompetent counter is incremented so later ordinals shift by one, and
iteration continues with the next mutant. -/
theorem MutationController.mutation_number_skip_spec
    (k : Nat) (st : ControllerState) (item item' : GenItem) (rest : List GenItem)
    (hk0 : k ≠ 0) (hne : k ≠ st.score.all_mutants + 1) :
    MutationController.processMutant (some k) st item
      = { st with score := st.score.inc_incompetent } ∧
    MutationController.processMutant (some k) st item
      = MutationController.processMutant (some k) st item' ∧
    (MutationController.processMutant (some k) st item).log = st.log ∧
    ((item :: rest).foldl (MutationController.processMutant (some k)) st
      = rest.foldl (MutationController.processMutant (some k))
          { st with score := st.score.inc_incompetent }) ∧
    ({ st with score := st.score.inc_incompetent } : ControllerState).score.all_mutants
      = st.score.all_mutants + 1 := by
  have hmm : mutationNumberMismatch (some k) (st.score.all_mutants + 1) = true := by
    simp only [mutationNumberMismatch, Bool.and_eq_true, bne_iff_ne, ne_eq]
    exact ⟨hk0, hne⟩
  have h1 : MutationController.processMutant (some k) st item
      = { st with score := st.score.inc_incompetent } := by
    unfold MutationController.processMutant
    rw [if_pos hmm]
  have h1' : MutationController.processMutant (some k) st item'
      = { st with score := st.score.inc_incompetent } := by
    unfold MutationController.processMutant
    rw [if_pos hmm]
  refine ⟨h1, h1.trans h1'.symm, by rw [h1], ?_, ?_⟩
  · rw [List.foldl_cons, h1]
  · exact MutationScore.all_mutants_inc_incompetent st.score

theorem MutationController.mutation_number_skip_spec_witness :
    MutationController.processMutant (some 5) ⟨MutationScore.init, []⟩
        ⟨[], none, none, 0⟩
      = { score := MutationScore.init.inc_incompetent, log := [] } :=
  (MutationController.mutation_number_skip_spec 5 ⟨MutationScore.init, []⟩
    ⟨[], none, none, 0⟩ ⟨[], none, none, 0⟩ [] (by decide) (by decide)).1

/-- C7: the deadline handed to the mutation test runner is
`timeout_factor * max(total_duration, 1)`: it equals `timeout_factor` itself
whenever the measured baseline duration is at most 1, and scales linearly as
`timeout_factor * total_duration` when the baseline duration exceeds 1. -/
theorem MutationController.live_time_spec (timeout_factor total_duration : ℚ) :
    MutationController.live_time timeout_factor total_duration
      = timeout_factor * max total_duration 1 ∧
    (total_duration ≤ 1 →
      MutationController.live_time timeout_factor total_duration = timeout_factor) ∧
    (1 < total_duration →
      MutationController.live_time timeout_factor total_duration
        = timeout_factor * total_duration) := by
  unfold MutationController.live_time
  rcases le_or_lt total_duration 1 with h | h
  · rw [if_neg (not_lt.2 h), max_eq_right h]
    exact ⟨by ring, fun _ => by ring, fun h' => absurd h' (not_lt.2 h)⟩
  · rw [if_pos h, max_eq_left h.le]
    exact ⟨rfl, fun h' => absurd h (not_lt.2 h'), fun _ => rfl⟩

theorem MutationController.live_time_spec_witness :
    MutationController.live_time 5 3 = 15 ∧ MutationController.live_time 5 (1/2) = 5 := by
  constructor
  · rw [(MutationController.live_time_spec 5 3).2.2 (by norm_num)]
    norm_num
  · rw [(MutationController.live_time_spec 5 (1/2)).2.1 (by norm_num)]

/-- C9: Each-Choice and First-to-Last produce groups that are a function of the
ordered input list alone, so two runs on the same input yield identical group
sequences; Random's output depends only on the permutation its shuffler
produced, so two runs whose shufflers return the same shuffled list yield
identical group sequences. -/
theorem homStrategies_deterministic (order : Nat) (ms1 ms2 : List Mutation)
    (shuf1 shuf2 : List Mutation → List Mutation) :
    (ms1 = ms2 →
      FirstToLastHOMStrategy.generate order ms1 = FirstToLastHOMStrategy.generate order ms2 ∧
      EachChoiceHOMStrategy.generate order ms1 = EachChoiceHOMStrategy.generate order ms2) ∧
    (shuf1 ms1 = shuf2 ms2 →
      RandomHOMStrategy.generate order shuf1 ms1 = RandomHOMStrategy.generate order shuf2 ms2) := by
  constructor
  · rintro rfl
    exact ⟨rfl, rfl⟩
  · intro h
    unfold RandomHOMStrategy.generate
    rw [h]

theorem homStrategies_deterministic_witness :
    FirstToLastHOMStrategy.generate 2 [] = FirstToLastHOMStrategy.generate 2 [] ∧
    EachChoiceHOMStrategy.generate 2 [] = EachChoiceHOMStrategy.generate 2 [] :=
  (homStrategies_deterministic 2 [] [] id id).1 rfl

/-- C3: every group yielded by any of the four combination strategies is
pairwise non-conflicting: no two mutations in a group target the same node
and neither node lies among the other's descendants (`children`), in either
direction. -/
theorem homStrategies_conflict_free (order : Nat) (ms : List Mutation)
    (shuffler : List Mutation → List Mutation) :
    (∀ g ∈ FirstToLastHOMStrategy.generate order ms,
      g.Pairwise (fun a b => locationConflict a b = false ∧ locationConflict b a = false)) ∧
    (∀ g ∈ EachChoiceHOMStrategy.generate order ms,
      g.Pairwise (fun a b => locationConflict a b = false ∧ locationConflict b a = false)) ∧
    (∀ g ∈ BetweenOperatorsHOMStrategy.generate order ms,
      g.Pairwise (fun a b => locationConflict a b = false ∧ locationConflict b a = false)) ∧
    (∀ g ∈ RandomHOMStrategy.generate order shuffler ms,
      g.Pairwise (fun a b => locationConflict a b = false ∧ locationConflict b a = false)) := by
  refine ⟨?_, ?_, ?_, ?_⟩
  · intro g hg
    exact (FirstToLastHOMStrategy.ftl_generateLoop_pairwise order ms.length ms g hg).imp
      (fun h => locationConflict_of_isBadMutation h)
  · intro g hg
    exact (EachChoiceHOMStrategy.ec_generateLoop_pairwise order ms.length ms g hg).imp
      (fun h => locationConflict_of_isBadMutation h)
  · intro g hg
    exact (BetweenOperatorsHOMStrategy.bo_generateLoop_pairwise order ms ms.length
      (fun _ => 0) ms g hg).imp (fun h => locationConflict_of_isBadMutation h)
  · intro g hg
    exact (RandomHOMStrategy.rand_generateLoop_pairwise order (shuffler ms).length (shuffler ms) g hg).imp
      (fun h => locationConflict_of_isBadMutation h)

theorem homStrategies_conflict_free_witness :
    ([⟨1, ⟨1, []⟩, 1⟩, ⟨2, ⟨2, []⟩, 2⟩] : List Mutation).Pairwise
      (fun a b => locationConflict a b = false ∧ locationConflict b a = false) :=
  (homStrategies_conflict_free 2 [⟨1, ⟨1, []⟩, 1⟩, ⟨2, ⟨2, []⟩, 2⟩] id).1
    [⟨1, ⟨1, []⟩, 1⟩, ⟨2, ⟨2, []⟩, 2⟩] (by decide)

/-- C4: with the configured order at least 1, First-to-Last, Each-Choice and
Random (whose shuffler permutes its input) cover every input mutation exactly
once: the concatenation of the yielded groups is a permutation of the input
list.  Between-Operators may reuse mutations, but the distinct mutations
across its groups are exactly the input set, and when generation completes
every input mutation's usage counter is at least 1.  (`ms.Nodup` reflects
that distinct Python `Mutation` objects are distinct list elements.) -/
theorem homStrategies_coverage (order : Nat) (ms : List Mutation)
    (shuffler : List Mutation → List Mutation)
    (ho : 1 ≤ order) (hnd : ms.Nodup) (hshuf : (shuffler ms).Perm ms) :
    ((FirstToLastHOMStrategy.generate order ms).flatten).Perm ms ∧
    ((EachChoiceHOMStrategy.generate order ms).flatten).Perm ms ∧
    ((RandomHOMStrategy.generate order shuffler ms).flatten).Perm ms ∧
    ((BetweenOperatorsHOMStrategy.generate order ms).flatten).toFinset = ms.toFinset ∧
    (∀ m ∈ ms, 1 ≤ (BetweenOperatorsHOMStrategy.generateFull order ms).2.1 m) := by
  have hinv0 : ∀ x, x ∈ ms ↔ x ∈ ms ∧ (fun _ : Mutation => 0) x = 0 := by
    intro x
    simp
  obtain ⟨q1, q2, q3, q4⟩ := BetweenOperatorsHOMStrategy.generateLoop_spec order ms ho
    ms.length (fun _ => 0) ms hinv0 hnd le_rfl
  refine ⟨?_, ?_, ?_, ?_, ?_⟩
  · exact FirstToLastHOMStrategy.ftl_generateLoop_flatten_perm order ho ms.length ms le_rfl
  · exact EachChoiceHOMStrategy.ec_generateLoop_flatten_perm order ho ms.length ms le_rfl
  · exact (RandomHOMStrategy.rand_generateLoop_flatten_perm order ho (shuffler ms).length
      (shuffler ms) le_rfl).trans hshuf
  · ext x
    simp only [List.mem_toFinset]
    constructor
    · intro hx
      exact q3 x hx
    · intro hx
      have husage : 1 ≤ (BetweenOperatorsHOMStrategy.generateLoop order ms ms.length
          (fun _ => 0) ms).2.1 x := by
        by_contra hcon
        have h0 : (BetweenOperatorsHOMStrategy.generateLoop order ms ms.length
            (fun _ => 0) ms).2.1 x = 0 := by omega
        have := (q4 x).mpr ⟨hx, h0⟩
        rw [q1] at this
        simp at this
      have := q2 x
      simp only at this
      rw [this] at husage
      have hcount : 1 ≤ ((BetweenOperatorsHOMStrategy.generateLoop order ms ms.length
          (fun _ => 0) ms).1.flatten.count x) := by omega
      exact List.count_pos_iff.mp hcount
  · intro m hm
    by_contra hcon
    have h0 : (BetweenOperatorsHOMStrategy.generateFull order ms).2.1 m = 0 := by omega
    have := (q4 m).mpr ⟨hm, h0⟩
    rw [q1] at this
    simp at this

theorem homStrategies_coverage_witness :
    ((FirstToLastHOMStrategy.generate 2
        [⟨1, ⟨1, []⟩, 1⟩, ⟨2, ⟨2, []⟩, 2⟩, ⟨3, ⟨3, []⟩, 3⟩]).flatten).Perm
      [⟨1, ⟨1, []⟩, 1⟩, ⟨2, ⟨2, []⟩, 2⟩, ⟨3, ⟨3, []⟩, 3⟩] ∧
    ((BetweenOperatorsHOMStrategy.generate 2
        [⟨1, ⟨1, []⟩, 1⟩, ⟨2, ⟨2, []⟩, 2⟩, ⟨3, ⟨3, []⟩, 3⟩]).flatten).toFinset
      = ([⟨1, ⟨1, []⟩, 1⟩, ⟨2, ⟨2, []⟩, 2⟩, ⟨3, ⟨3, []⟩, 3⟩] : List Mutation).toFinset := by
  have h := homStrategies_coverage 2
    [⟨1, ⟨1, []⟩, 1⟩, ⟨2, ⟨2, []⟩, 2⟩, ⟨3, ⟨3, []⟩, 3⟩] id (by decide) (by decide)
    (by decide)
  exact ⟨h.1, h.2.2.2.1⟩

/-- C10: for every strategy, running `generate` to completion leaves the
caller's list object unchanged (same elements in the same order): in the heap
model each strategy only reads the caller's reference, and every list
mutation targets a copy allocated inside the call. -/
theorem homStrategies_caller_list_frame (order : Nat)
    (shuffler : List Mutation → List Mutation) (h : ListHeap) (r : Nat)
    (hr : r < h.cells.length) :
    (FirstToLastHOMStrategy.generateH order h r).2.get r = h.get r ∧
    (EachChoiceHOMStrategy.generateH order h r).2.get r = h.get r ∧
    (BetweenOperatorsHOMStrategy.generateH order h r).2.get r = h.get r ∧
    (RandomHOMStrategy.generateH order shuffler h r).2.get r = h.get r :=
  ⟨FirstToLastHOMStrategy.ftl_generateH_frame order h r hr,
   EachChoiceHOMStrategy.ec_generateH_frame order h r hr,
   BetweenOperatorsHOMStrategy.bo_generateH_frame order h r hr,
   RandomHOMStrategy.rand_generateH_frame order shuffler h r hr⟩

theorem homStrategies_caller_list_frame_witness :
    (FirstToLastHOMStrategy.generateH 2 ⟨[[⟨1, ⟨1, []⟩, 1⟩, ⟨2, ⟨2, []⟩, 2⟩]]⟩ 0).2.get 0
      = [⟨1, ⟨1, []⟩, 1⟩, ⟨2, ⟨2, []⟩, 2⟩] :=
  (homStrategies_caller_list_frame 2 id ⟨[[⟨1, ⟨1, []⟩, 1⟩, ⟨2, ⟨2, []⟩, 2⟩]]⟩ 0
    (by decide)).1

/-- C8: if any baseline test fails, `run()` aborts with `sys.exit(-1)` before
any mutant is generated or classified (the score still counts zero mutants
and only the initialization and failure notifications were sent); if the test
loader or the target loader raises `ModulesLoaderException`, `run()` aborts
with `sys.exit(-2)`; otherwise the run completes normally (process exit
status 0).  Each branch is a single pass — nothing is retried. -/
theorem MutationController.run_exit_status_spec (inp : ControllerInput) :
    ((∃ r ∈ inp.testModules, r.wasSuccessful = false) →
      ∃ st, MutationController.run inp = .exited (-1) st ∧
        st.score.all_mutants = 0 ∧
        st.log = [Notification.initNotice, Notification.originalTestsFailNotice]) ∧
    ((∀ r ∈ inp.testModules, r.wasSuccessful = true) →
      ∀ name, inp.testLoadError = some name →
      ∃ st, MutationController.run inp = .exited (-2) st ∧ st.score.all_mutants = 0) ∧
    ((∀ r ∈ inp.testModules, r.wasSuccessful = true) → inp.testLoadError = none →
      (∀ t ∈ inp.targets, t.genError = none) →
      ∀ name, inp.targetLoadError = some name →
      ∃ st, MutationController.run inp = .exited (-2) st) ∧
    ((∀ r ∈ inp.testModules, r.wasSuccessful = true) → inp.testLoadError = none →
      (∀ t ∈ inp.targets, t.genError = none) → inp.targetLoadError = none →
      ∃ st, MutationController.run inp = .normal st) := by
  refine ⟨?_, ?_, ?_, ?_⟩
  · intro hfail
    have hload : MutationController.load_and_check_tests inp = .error .testsFailAtOriginal := by
      unfold MutationController.load_and_check_tests
      rw [MutationController.loadTestsLoop_fail inp.testModules [] 0 0 hfail]
    refine ⟨((⟨MutationScore.init, []⟩ : ControllerState).notify .initNotice).notify
      .originalTestsFailNotice, ?_, rfl, rfl⟩
    unfold MutationController.run
    rw [hload]
  · intro hall name hname
    have hload : MutationController.load_and_check_tests inp
        = .error (.modulesLoader name) := by
      unfold MutationController.load_and_check_tests
      rw [MutationController.loadTestsLoop_ok inp.testModules [] 0 0 hall, hname]
    refine ⟨((⟨MutationScore.init, []⟩ : ControllerState).notify .initNotice).notify
      (.cantLoadNotice name), ?_, rfl⟩
    unfold MutationController.run
    rw [hload]
  · intro hall hnone hgen name hname
    have hload : MutationController.load_and_check_tests inp
        = .ok ([] ++ inp.testModules, 0 + (inp.testModules.map TestModuleRun.duration).sum,
            0 + (inp.testModules.map TestModuleRun.testsRun).sum) := by
      unfold MutationController.load_and_check_tests
      rw [MutationController.loadTestsLoop_ok inp.testModules [] 0 0 hall, hnone]
    unfold MutationController.run
    rw [hload, hname]
    dsimp only
    rw [MutationController.targetsLoop_loaderr inp.mutation_number inp.targets name _ hgen]
    exact ⟨_, rfl⟩
  · intro hall hnone hgen hnone2
    have hload : MutationController.load_and_check_tests inp
        = .ok ([] ++ inp.testModules, 0 + (inp.testModules.map TestModuleRun.duration).sum,
            0 + (inp.testModules.map TestModuleRun.testsRun).sum) := by
      unfold MutationController.load_and_check_tests
      rw [MutationController.loadTestsLoop_ok inp.testModules [] 0 0 hall, hnone]
    unfold MutationController.run
    rw [hload, hnone2]
    dsimp only
    rw [MutationController.targetsLoop_ok inp.mutation_number inp.targets _ hgen]
    exact ⟨_, rfl⟩

theorem MutationController.run_exit_status_spec_witness :
    ∃ st, MutationController.run ⟨[⟨false, 1, 1⟩], none, [], none, none⟩
        = .exited (-1) st ∧ st.score.all_mutants = 0 ∧
        st.log = [Notification.initNotice, Notification.originalTestsFailNotice] :=
  (MutationController.run_exit_status_spec ⟨[⟨false, 1, 1⟩], none, [], none, none⟩).1
    ⟨⟨false, 1, 1⟩, by decide, rfl⟩

/-- C5 counterexample: with a single-mutation target whose operator finds no
target on re-application, `HighOrderMutator.mutate` hits `assert False, 'no
mutations!'`; in the controller model this `AssertionError` is caught nowhere,
so the run crashes instead of continuing, and the mutant is never classified:
the incompetent counter stays 0. -/
theorem hom_assertion_counterexample :
    HighOrderMutator.mutate (fun _ _ => ([] : List (Mutation × Nat)))
        (FirstToLastHOMStrategy.generate 2) (0 : Nat) [⟨0, ⟨0, []⟩, 0⟩]
      = ([], some "no mutations!") ∧
    MutationController.run
        ⟨[⟨true, 1, 1⟩], none, [⟨"t", [], some "no mutations!"⟩], none, none⟩
      = .crashed "no mutations!"
          ⟨MutationScore.init,
           [Notification.initNotice, Notification.passedNotice 1,
            Notification.startNotice]⟩ ∧
    (MutationController.run
        ⟨[⟨true, 1, 1⟩], none,
         [⟨"t", [], some "no mutations!"⟩], none, none⟩).state.score.incompetent_mutants
      = 0 := by
  refine ⟨?_, ?_, ?_⟩ <;> decide

/-- C5 (amended): if, during higher-order mutant generation, re-applying a
mutation's operator to the (partially mutated) representation yields no
mutation, the generator raises `AssertionError('no mutations!')`; the
exception propagates uncaught through `mutate_module` and `run`, aborting the
entire run — the failing mutant is not classified (the final state is exactly
the fold over the mutants the generator had already yielded). -/
theorem hom_assertion_aborts_run {Rep : Type}
    (opMutate : Mutation → Rep → List (Mutation × Rep)) (target_ast : Rep)
    (mutation : Mutation) (grest : List Mutation) (groups : List (List Mutation))
    (inp : ControllerInput) (t : TargetModuleInput) (e : String)
    (hop : opMutate mutation target_ast = [])
    (htests : ∀ r ∈ inp.testModules, r.wasSuccessful = true)
    (hload : inp.testLoadError = none)
    (htarget : inp.targets = [t]) (hgen : t.genError = some e) :
    HighOrderMutator.mutateLoop opMutate target_ast ((mutation :: grest) :: groups)
      = ([], some "no mutations!") ∧
    MutationController.run inp = .crashed e
      (t.genItems.foldl (MutationController.processMutant inp.mutation_number)
        ⟨MutationScore.init,
         [Notification.initNotice,
          Notification.passedNotice (0 + (inp.testModules.map TestModuleRun.testsRun).sum),
          Notification.startNotice]⟩) := by
  constructor
  · simp only [HighOrderMutator.mutateLoop, HighOrderMutator.applyMutations, hop]
  · have hloadok : MutationController.load_and_check_tests inp
        = .ok ([] ++ inp.testModules, 0 + (inp.testModules.map TestModuleRun.duration).sum,
            0 + (inp.testModules.map TestModuleRun.testsRun).sum) := by
      unfold MutationController.load_and_check_tests
      rw [MutationController.loadTestsLoop_ok inp.testModules [] 0 0 htests, hload]
    unfold MutationController.run
    rw [hloadok, htarget]
    dsimp only
    rw [MutationController.targetsLoop_genError inp.mutation_number t e []
      inp.targetLoadError _ hgen]
    rfl

theorem hom_assertion_aborts_run_witness :
    HighOrderMutator.mutateLoop (fun _ _ => ([] : List (Mutation × Nat))) (0 : Nat)
        [[⟨0, ⟨0, []⟩, 0⟩]]
      = ([], some "no mutations!") ∧
    MutationController.run
        ⟨[⟨true, 2, 1⟩], none, [⟨"t", [], some "no mutations!"⟩], none, none⟩
      = .crashed "no mutations!"
          ((([] : List GenItem).foldl (MutationController.processMutant none))
            ⟨MutationScore.init,
             [Notification.initNotice,
              Notification.passedNotice
                (0 + ([(⟨true, 2, 1⟩ : TestModuleRun)].map TestModuleRun.testsRun).sum),
              Notification.startNotice]⟩) :=
  hom_assertion_aborts_run (fun _ _ => ([] : List (Mutation × Nat))) (0 : Nat)
    ⟨0, ⟨0, []⟩, 0⟩ [] []
    ⟨[⟨true, 2, 1⟩], none, [⟨"t", [], some "no mutations!"⟩], none, none⟩
    ⟨"t", [], some "no mutations!"⟩ "no mutations!"
    rfl (by decide) rfl rfl rfl
